import Mathlib

/-!
Verification of the sketch-element index construction and filtering core
(`cudamapper/src/index_gpu.cuh`): the frequency filter
(`filter_out_most_common_representations` and its kernels), the grouping
step (`find_first_occurrences_of_representations`), the generation
pipeline (`IndexGPU::generate_index`) and the readiness gate
(`is_ready` / `wait_to_be_ready` and the read accessors).

Modelling conventions: device buffers become `List`s; `representation_t`,
`read_id_t`, `position_in_read_t` and sizes become `ℕ`;
`DirectionOfRepresentation` becomes `Bool`; the `double`
`filtering_parameter` becomes `ℚ`; a thrown `IndexNotReadyException`
becomes `Except.error`.  CUDA kernels are modelled by their sequential
effect on the arrays.
-/

namespace GenomeWorks

/-- One sketch element: (representation, read_id, position_in_read, direction).
Mirrors the four parallel data arrays of `IndexGPU`. -/
structure SketchElement where
  representation : ℕ
  read_id : ℕ
  position_in_read : ℕ
  direction : Bool
deriving DecidableEq, Repr

/-- The six co-indexed arrays owned by `IndexGPU`. -/
structure IndexArrays where
  representations : List ℕ
  read_ids : List ℕ
  positions_in_reads : List ℕ
  directions_of_reads : List Bool
  unique_representations : List ℕ
  first_occurrence_of_representations : List ℕ
deriving DecidableEq, Repr

/-! ### GroupingCompactor (`find_first_occurrences_of_representations`)

Modelled from the spec: the body of `find_first_occurrences_of_representations`
and of `find_first_occurrences_of_representations_kernel` is not part of the
provided sources (`index_gpu.cuh` only declares them and documents their
behaviour); the definitions below follow §4.2 of the spec: "a position i is a
group boundary if i==0 or representations[i] ≠ representations[i−1]"; the
boundary positions' representations and indices are scattered, in ordinal
order, into `unique_representations`/`first_occurrence`, and the total count
is appended as the final sentinel. -/

/-- Modelled from the spec: group-boundary test of §4.2
(i==0 or representations[i] ≠ representations[i−1]). -/
def is_group_boundary (representations : List ℕ) (i : ℕ) : Bool :=
  i == 0 || representations.getD i 0 != representations.getD (i - 1) 0

/-- Modelled from the spec: the group-boundary positions, in increasing order
(the scatter by `ordinal − 1` of §4.2 emits them exactly in this order). -/
def group_boundaries (representations : List ℕ) : List ℕ :=
  (List.range representations.length).filter (fun i => is_group_boundary representations i)

/-- Modelled from the spec: `find_first_occurrences_of_representations`
(declared at `index_gpu.cuh:222`, body not in the provided sources).  Returns
`(unique_representations, first_occurrence_index)`; the second list carries
the appended sentinel `n`. -/
def find_first_occurrences_of_representations (representations : List ℕ) :
    List ℕ × List ℕ :=
  ((group_boundaries representations).map (fun i => representations.getD i 0),
   group_boundaries representations ++ [representations.length])

/-! ### FrequencyFilter (`filter_out_most_common_representations`) -/

/-- `thrust::adjacent_difference`: `out[0] = in[0]`, `out[i] = in[i] - in[i-1]`. -/
def adjacent_difference : List ℕ → List ℕ
  | [] => []
  | x :: xs => x :: List.zipWith (fun a b => a - b) xs (x :: xs)

/-- `index_gpu.cuh:450-460`: the per-representation occurrence counts, one
extra `0` at the end; computed as the adjacent difference of
`first_occurrence_of_representations_d` starting from its second element. -/
def number_of_sketch_elements_with_each_representation
    (first_occurrence_of_representations_d : List ℕ) : List ℕ :=
  adjacent_difference first_occurrence_of_representations_d.tail ++ [0]

/-- `index_gpu.cuh:462-465`: `static_cast<std::uint64_t>(total_sketch_elements
* filtering_parameter + 0.001)`. -/
def filtering_threshold (total_sketch_elements : ℕ) (filtering_parameter : ℚ) : ℕ :=
  ⌊(total_sketch_elements : ℚ) * filtering_parameter + 1 / 1000⌋₊

/-- `index_gpu.cuh:472-479`: `thrust::replace_if` setting to `0` the count of
every representation with `val >= filtering_threshold`; the last element is
not processed ("it should remain 0"). -/
def replace_filtered_with_zero (counts : List ℕ) (filtering_threshold : ℕ) : List ℕ :=
  counts.dropLast.map (fun val => if filtering_threshold ≤ val then 0 else val) ++
    counts.drop (counts.length - 1)

/-- `thrust::exclusive_scan` with initial value 0: `out[i] = Σ_{j<i} in[j]`. -/
def exclusive_scan (l : List ℕ) : List ℕ :=
  (List.range l.length).map (fun i => ((l.take i).sum))

/-- `index_gpu.cuh:499-518`: `thrust::transform_exclusive_scan` over the
counting iterator `0 .. number_of_unique_representations`, transforming index
`i` into `1` if its (post-replace) count is nonzero, `0` otherwise (and `0`
for the additional element at the end), then exclusive-summing. -/
def unique_representation_index_after_filtering
    (counts_after : List ℕ) (number_of_unique_representations : ℕ) : List ℕ :=
  exclusive_scan ((List.range (number_of_unique_representations + 1)).map
    (fun i => if i < number_of_unique_representations then
                (if counts_after.getD i 0 = 0 then 0 else 1)
              else 0))

/-- The indices (in `0 .. number_of_unique_representations`) of the
representations surviving the filter, in increasing order — those whose
post-replace count is nonzero. -/
def kept_list (counts_after : List ℕ) (number_of_unique_representations : ℕ) : List ℕ :=
  (List.range number_of_unique_representations).filter
    (fun i => counts_after.getD i 0 != 0)

/-- Modelled from the spec: the body of
`compress_unique_representations_after_filtering_kernel` is not part of the
provided sources (`index_gpu.cuh:300` only declares and documents it).  Per
§4.3 steps 4-5 of the spec: every surviving group (count > 0) moves, in
order, to its new slot given by the exclusive-scanned keep mask; filtered
groups contribute nothing; `first_occurrence` gains the new sentinel (the
total number of elements surviving the filter). -/
def compress_unique_representations_after_filtering
    (unique_representations_before : List ℕ)
    (counts_after : List ℕ)
    (first_occurrence_after_filtering : List ℕ) : List ℕ × List ℕ :=
  let kept := kept_list counts_after unique_representations_before.length
  (kept.map (fun i => unique_representations_before.getD i 0),
   kept.map (fun i => first_occurrence_after_filtering.getD i 0) ++
     [first_occurrence_after_filtering.getD unique_representations_before.length 0])

/-- The effect of one thread block of
`compress_data_arrays_after_filtering_kernel` (`index_gpu.cuh:386-392`) on one
array: copy `src` into `dst` starting at `offset` (the block's threads write
`dst[offset + i] = src[src_offset + i]` for `i < count`; `src` here is already
the `count`-element slice starting at `src_offset`). -/
def write_slice {α : Type} (dst : List α) (offset : ℕ) (src : List α) : List α :=
  dst.take offset ++ src ++ dst.drop (offset + src.length)

/-- `compress_data_arrays_after_filtering_kernel` (`index_gpu.cuh:349-393`)
acting on one of the four data arrays (the kernel performs the same copy on
all four; it is applied once per array below).  One block per original unique
representation: a block returns immediately if its representation was
filtered out (count 0), otherwise it copies its `count` elements from offset
`first_occurrence_of_representation_before_filtering_d[r]` to offset
`first_occurrence_of_representation_after_compression_d[unique_representation_index_after_compression_d[r]]`. -/
def compress_data_arrays_after_filtering_kernel {α : Type}
    (number_of_unique_representations : ℕ)
    (number_of_sketch_elements_with_representation_before_compression_d : List ℕ)
    (first_occurrence_of_representation_before_filtering_d : List ℕ)
    (first_occurrence_of_representation_after_compression_d : List ℕ)
    (unique_representation_index_after_compression_d : List ℕ)
    (data_before_compression_d : List α)
    (data_after_compression_d : List α) : List α :=
  (List.range number_of_unique_representations).foldl
    (fun dst representation_index =>
      let count :=
        number_of_sketch_elements_with_representation_before_compression_d.getD
          representation_index 0
      if count = 0 then dst
      else
        write_slice dst
          (first_occurrence_of_representation_after_compression_d.getD
            (unique_representation_index_after_compression_d.getD representation_index 0) 0)
          ((data_before_compression_d.drop
             (first_occurrence_of_representation_before_filtering_d.getD
               representation_index 0)).take count))
    data_after_compression_d

/-- The whole of `filter_out_most_common_representations`
(`index_gpu.cuh:434-586`) after the computation of `filtering_threshold`:
removes all sketch elements whose representation occurs at least `thr` times
and compacts the six arrays. -/
def filter_out_with_threshold (thr : ℕ) (A : IndexArrays) : IndexArrays :=
  let counts := number_of_sketch_elements_with_each_representation
    A.first_occurrence_of_representations
  let counts_after := replace_filtered_with_zero counts thr
  let first_occurrence_after_filtering := exclusive_scan counts_after
  let number_of_unique_representations := A.unique_representations.length
  let new_index := unique_representation_index_after_filtering counts_after
    number_of_unique_representations
  let compressed := compress_unique_representations_after_filtering
    A.unique_representations counts_after first_occurrence_after_filtering
  let unique_after := compressed.1
  let first_occurrence_after := compressed.2
  let number_of_sketch_elements_after_compression :=
    first_occurrence_after.getD (first_occurrence_after.length - 1) 0
  let compress := fun {α : Type} (src : List α) (d : α) =>
    compress_data_arrays_after_filtering_kernel number_of_unique_representations
      counts_after A.first_occurrence_of_representations first_occurrence_after
      new_index src (List.replicate number_of_sketch_elements_after_compression d)
  { representations := compress A.representations 0
    read_ids := compress A.read_ids 0
    positions_in_reads := compress A.positions_in_reads 0
    directions_of_reads := compress A.directions_of_reads false
    unique_representations := unique_after
    first_occurrence_of_representations := first_occurrence_after }

/-- `filter_out_most_common_representations` (`index_gpu.cuh:434-586`): the
filtering threshold is `total_sketch_elements * filtering_parameter + 0.001`
truncated to an integer (`index_gpu.cuh:462-465`); every representation
whose occurrence count reaches it is removed. -/
def filter_out_most_common_representations
    (filtering_parameter : ℚ) (A : IndexArrays) : IndexArrays :=
  filter_out_with_threshold
    (filtering_threshold A.representations.length filtering_parameter) A

/-! ### The generation pipeline after sketch-element generation
(`IndexGPU::generate_index`, `index_gpu.cuh:922-970`) -/

/-- `thrust::stable_sort_by_key` on representation (`index_gpu.cuh:927`):
a stable merge sort comparing only the representation key. -/
def sort_sketch_elements (elems : List SketchElement) : List SketchElement :=
  elems.mergeSort (fun a b => decide (a.representation ≤ b.representation))

/-- The part of `generate_index` after sketch-element generation: stable sort
by representation, split into parallel arrays
(`copy_rest_to_separate_arrays`), grouping, and no filtering
(the `filtering_parameter == 1.0` path). -/
def build_arrays_unfiltered (elems : List SketchElement) : IndexArrays :=
  let sorted := sort_sketch_elements elems
  let representations := sorted.map (fun e => e.representation)
  let grouped := find_first_occurrences_of_representations representations
  { representations := representations
    read_ids := sorted.map (fun e => e.read_id)
    positions_in_reads := sorted.map (fun e => e.position_in_read)
    directions_of_reads := sorted.map (fun e => e.direction)
    unique_representations := grouped.1
    first_occurrence_of_representations := grouped.2 }

/-- The part of `generate_index` after sketch-element generation, including
the conditional filtering pass (`index_gpu.cuh:959-970`: the filter runs iff
`filtering_parameter < 1.0`). -/
def build_arrays (elems : List SketchElement) (filtering_parameter : ℚ) : IndexArrays :=
  if filtering_parameter < 1 then
    filter_out_most_common_representations filtering_parameter
      (build_arrays_unfiltered elems)
  else
    build_arrays_unfiltered elems

/-- The order in which the sketch-generation strategy emits raw sketch
elements: by `read_id`, then by `position_in_read` (`index_gpu.cuh:922-923`:
"the data was initially grouped by read_id"). -/
def read_order_le (a b : SketchElement) : Prop :=
  a.read_id < b.read_id ∨
    (a.read_id = b.read_id ∧ a.position_in_read ≤ b.position_in_read)

/-! ### `IndexGPU`: construction, readiness gate and accessors -/

/-- A read delivered by the FASTA parser (`io::FastaSequence`); only the
basepair string matters here. -/
structure FastaSequence where
  seq : List Char
deriving DecidableEq

/-- The state of an `IndexGPU` instance: the six owned arrays, the scalar
metadata, and the readiness flag (member names follow the source). -/
structure IndexGPUState where
  representations_d : List ℕ
  read_ids_d : List ℕ
  positions_in_reads_d : List ℕ
  directions_of_reads_d : List Bool
  unique_representations_d : List ℕ
  first_occurrence_of_representations_d : List ℕ
  first_read_id : ℕ
  kmer_size : ℕ
  window_size : ℕ
  number_of_reads_ : ℕ
  number_of_basepairs_in_longest_read_ : ℕ
  is_ready_ : Bool
deriving DecidableEq

/-- The error thrown by every read accessor invoked before the index is
ready (`IndexNotReadyException`). -/
inductive IndexError where
  | indexNotReadyException : IndexError
deriving DecidableEq

deriving instance DecidableEq for Except

/-- `IndexGPU::is_ready` (`index_gpu.cuh:768-772`). -/
def IndexGPUState.is_ready (s : IndexGPUState) : Bool :=
  s.is_ready_

/-- `IndexGPU::wait_to_be_ready` (`index_gpu.cuh:774-796`): if the index is
not ready, wait for the outstanding asynchronous work (stream
synchronization / `finish_copying`, a no-op on the state here) and set
`is_ready_` to true. -/
def IndexGPUState.wait_to_be_ready (s : IndexGPUState) : IndexGPUState :=
  if ¬ s.is_ready then { s with is_ready_ := true } else s

/-- `IndexGPU::representations` (`index_gpu.cuh:658-667`). -/
def IndexGPUState.representations (s : IndexGPUState) : Except IndexError (List ℕ) :=
  if ¬ s.is_ready then Except.error IndexError.indexNotReadyException
  else Except.ok s.representations_d

/-- `IndexGPU::read_ids` (`index_gpu.cuh:669-678`). -/
def IndexGPUState.read_ids (s : IndexGPUState) : Except IndexError (List ℕ) :=
  if ¬ s.is_ready then Except.error IndexError.indexNotReadyException
  else Except.ok s.read_ids_d

/-- `IndexGPU::positions_in_reads` (`index_gpu.cuh:680-689`). -/
def IndexGPUState.positions_in_reads (s : IndexGPUState) :
    Except IndexError (List ℕ) :=
  if ¬ s.is_ready then Except.error IndexError.indexNotReadyException
  else Except.ok s.positions_in_reads_d

/-- `IndexGPU::directions_of_reads` (`index_gpu.cuh:691-700`). -/
def IndexGPUState.directions_of_reads (s : IndexGPUState) :
    Except IndexError (List Bool) :=
  if ¬ s.is_ready then Except.error IndexError.indexNotReadyException
  else Except.ok s.directions_of_reads_d

/-- `IndexGPU::unique_representations` (`index_gpu.cuh:702-711`). -/
def IndexGPUState.unique_representations (s : IndexGPUState) :
    Except IndexError (List ℕ) :=
  if ¬ s.is_ready then Except.error IndexError.indexNotReadyException
  else Except.ok s.unique_representations_d

/-- `IndexGPU::first_occurrence_of_representations` (`index_gpu.cuh:713-722`). -/
def IndexGPUState.first_occurrence_of_representations (s : IndexGPUState) :
    Except IndexError (List ℕ) :=
  if ¬ s.is_ready then Except.error IndexError.indexNotReadyException
  else Except.ok s.first_occurrence_of_representations_d

/-- `IndexGPU::number_of_reads` (`index_gpu.cuh:724-733`). -/
def IndexGPUState.number_of_reads (s : IndexGPUState) : Except IndexError ℕ :=
  if ¬ s.is_ready then Except.error IndexError.indexNotReadyException
  else Except.ok s.number_of_reads_

/-- `IndexGPU::smallest_read_id` (`index_gpu.cuh:735-744`): `first_read_id_`
if the index is nonempty, `0` otherwise. -/
def IndexGPUState.smallest_read_id (s : IndexGPUState) : Except IndexError ℕ :=
  if ¬ s.is_ready then Except.error IndexError.indexNotReadyException
  else Except.ok (if 0 < s.number_of_reads_ then s.first_read_id else 0)

/-- `IndexGPU::largest_read_id` (`index_gpu.cuh:746-755`):
`first_read_id_ + number_of_reads_ - 1` if the index is nonempty, `0`
otherwise. -/
def IndexGPUState.largest_read_id (s : IndexGPUState) : Except IndexError ℕ :=
  if ¬ s.is_ready then Except.error IndexError.indexNotReadyException
  else Except.ok (if 0 < s.number_of_reads_ then
    s.first_read_id + s.number_of_reads_ - 1 else 0)

/-- `IndexGPU::number_of_basepairs_in_longest_read` (`index_gpu.cuh:757-766`). -/
def IndexGPUState.number_of_basepairs_in_longest_read (s : IndexGPUState) :
    Except IndexError ℕ :=
  if ¬ s.is_ready then Except.error IndexError.indexNotReadyException
  else Except.ok s.number_of_basepairs_in_longest_read_

/-- The read ids in `[first_read_id, past_the_last_read_id)` whose read is
long enough to fit one window (`index_gpu.cuh:828-848`: reads with
`length >= window_size + kmer_size - 1` are selected, shorter ones are
skipped with a diagnostic). -/
def qualifying_read_ids (parser : ℕ → FastaSequence)
    (first_read_id past_the_last_read_id window_size kmer_size : ℕ) : List ℕ :=
  (List.range' first_read_id (past_the_last_read_id - first_read_id)).filter
    (fun read_id =>
      decide (window_size + kmer_size - 1 ≤ (parser read_id).seq.length))

/-- `IndexGPU::generate_index` (`index_gpu.cuh:798-971`) combined with the
generating constructor (`index_gpu.cuh:592-625`), which zero-initializes all
arrays and scalars and sets `is_ready_ = false`.  The external
`SketchElementImpl::generate_sketch_elements` strategy is abstracted as
`gen`, a function from the qualifying read ids to the generated (unsorted)
sketch elements; the device transfers are identity on the data. -/
def IndexGPU_generate (gen : List ℕ → List SketchElement)
    (parser : ℕ → FastaSequence)
    (first_read_id past_the_last_read_id kmer_size window_size : ℕ)
    (filtering_parameter : ℚ) : IndexGPUState :=
  let empty : IndexGPUState :=
    { representations_d := []
      read_ids_d := []
      positions_in_reads_d := []
      directions_of_reads_d := []
      unique_representations_d := []
      first_occurrence_of_representations_d := []
      first_read_id := first_read_id
      kmer_size := kmer_size
      window_size := window_size
      number_of_reads_ := 0
      number_of_basepairs_in_longest_read_ := 0
      is_ready_ := false }
  if past_the_last_read_id ≤ first_read_id then
    -- `index_gpu.cuh:810-815`: no reads to process, empty index
    empty
  else
    let qualifying := qualifying_read_ids parser first_read_id
      past_the_last_read_id window_size kmer_size
    let lengths := qualifying.map (fun read_id => (parser read_id).seq.length)
    let total_basepairs := lengths.sum
    if total_basepairs = 0 then
      -- `index_gpu.cuh:851-859`: all reads skipped, empty index
      empty
    else
      let A := build_arrays (gen qualifying) filtering_parameter
      { representations_d := A.representations
        read_ids_d := A.read_ids
        positions_in_reads_d := A.positions_in_reads
        directions_of_reads_d := A.directions_of_reads
        unique_representations_d := A.unique_representations
        first_occurrence_of_representations_d := A.first_occurrence_of_representations
        first_read_id := first_read_id
        kmer_size := kmer_size
        window_size := window_size
        number_of_reads_ := past_the_last_read_id - first_read_id
        number_of_basepairs_in_longest_read_ := lengths.foldl max 0
        is_ready_ := false }

/-- A previously materialized host copy of an index
(`IndexHostCopy`): the same six arrays plus metadata. -/
structure IndexHostCopy where
  representations : List ℕ
  read_ids : List ℕ
  positions_in_reads : List ℕ
  directions_of_reads : List Bool
  unique_representations : List ℕ
  first_occurrence_of_representations : List ℕ
  first_read_id : ℕ
  kmer_size : ℕ
  window_size : ℕ
  number_of_reads : ℕ
  number_of_basepairs_in_longest_read : ℕ
deriving DecidableEq

/-- The copying constructor (`index_gpu.cuh:627-656`): asynchronous
transfer of the six arrays and the metadata from a host copy;
`is_ready_ = false` until `wait_to_be_ready`. -/
def IndexGPU_from_host_copy (c : IndexHostCopy) : IndexGPUState :=
  { representations_d := c.representations
    read_ids_d := c.read_ids
    positions_in_reads_d := c.positions_in_reads
    directions_of_reads_d := c.directions_of_reads
    unique_representations_d := c.unique_representations
    first_occurrence_of_representations_d := c.first_occurrence_of_representations
    first_read_id := c.first_read_id
    kmer_size := c.kmer_size
    window_size := c.window_size
    number_of_reads_ := c.number_of_reads
    number_of_basepairs_in_longest_read_ := c.number_of_basepairs_in_longest_read
    is_ready_ := false }

/-- The operations a client can perform on an existing index instance:
the blocking `wait_to_be_ready`, or any of the `const` read accessors
(which never mutate the state). -/
inductive IndexOp where
  | wait_to_be_ready : IndexOp
  | read_accessor : IndexOp
deriving DecidableEq

/-- Effect of one operation on the instance state. -/
def IndexOp.apply (op : IndexOp) (s : IndexGPUState) : IndexGPUState :=
  match op with
  | IndexOp.wait_to_be_ready => s.wait_to_be_ready
  | IndexOp.read_accessor => s

/-- Effect of a sequence of operations on the instance state. -/
def applyOps (ops : List IndexOp) (s : IndexGPUState) : IndexGPUState :=
  ops.foldl (fun s op => op.apply s) s

/-! ### Concrete data used by witnesses and counterexamples -/

/-- A one-element index whose single representation `7` occurs once
(so with threshold 1 the filter would remove it). -/
def oneElementArrays : IndexArrays :=
  { representations := [7]
    read_ids := [3]
    positions_in_reads := [0]
    directions_of_reads := [true]
    unique_representations := [7]
    first_occurrence_of_representations := [0, 1] }

/-- The concrete input of spec Scenario A: representations
`[5,5,5,5,9,9,3,3,3,3,3]` (11 elements, already grouped), with
distinguishable read ids, positions and directions, and the grouping arrays
`unique_representations = [5,9,3]`, `first_occurrence = [0,4,6,11]`. -/
def scenarioA : IndexArrays :=
  { representations := [5, 5, 5, 5, 9, 9, 3, 3, 3, 3, 3]
    read_ids := [10, 11, 12, 13, 14, 15, 16, 17, 18, 19, 20]
    positions_in_reads := [0, 1, 2, 3, 4, 5, 6, 7, 8, 9, 10]
    directions_of_reads :=
      [true, true, true, true, false, true, true, true, true, true, true]
    unique_representations := [5, 9, 3]
    first_occurrence_of_representations := [0, 4, 6, 11] }

/-! ### Claim theorems -/

/-- **C3.** For every input, constructing the index with
`filtering_parameter == 1.0` bypasses the frequency filter entirely and the
six arrays equal the unfiltered result of generation, sorting, splitting and
grouping.  The second conjunct shows this is a genuine bypass, not a
threshold that never triggers: actually running the filter with
`filtering_parameter = 1.0` on a one-element index would have changed the
arrays. -/
theorem claim_C3 :
    (∀ elems : List SketchElement,
      build_arrays elems 1 = build_arrays_unfiltered elems) ∧
    filter_out_most_common_representations 1 oneElementArrays ≠ oneElementArrays := by
  constructor
  · intro elems
    unfold build_arrays
    rw [if_neg (lt_irrefl (1 : ℚ))]
  · have hlen : oneElementArrays.representations.length = 1 := rfl
    have hthr : filtering_threshold 1 1 = 1 := by
      unfold filtering_threshold
      rw [Nat.floor_eq_iff (by norm_num)]
      norm_num
    rw [filter_out_most_common_representations, hlen, hthr]
    decide

/-- **C7.** Every read accessor of the index — the six array accessors and
the four scalar accessors — fails with `IndexNotReadyException` if and only
if it is invoked while `is_ready()` is false; once ready, each returns a
value without error. -/
theorem claim_C7 (s : IndexGPUState) :
    (s.representations = Except.error IndexError.indexNotReadyException ↔
      s.is_ready = false) ∧
    (s.read_ids = Except.error IndexError.indexNotReadyException ↔
      s.is_ready = false) ∧
    (s.positions_in_reads = Except.error IndexError.indexNotReadyException ↔
      s.is_ready = false) ∧
    (s.directions_of_reads = Except.error IndexError.indexNotReadyException ↔
      s.is_ready = false) ∧
    (s.unique_representations = Except.error IndexError.indexNotReadyException ↔
      s.is_ready = false) ∧
    (s.first_occurrence_of_representations =
        Except.error IndexError.indexNotReadyException ↔ s.is_ready = false) ∧
    (s.number_of_reads = Except.error IndexError.indexNotReadyException ↔
      s.is_ready = false) ∧
    (s.smallest_read_id = Except.error IndexError.indexNotReadyException ↔
      s.is_ready = false) ∧
    (s.largest_read_id = Except.error IndexError.indexNotReadyException ↔
      s.is_ready = false) ∧
    (s.number_of_basepairs_in_longest_read =
        Except.error IndexError.indexNotReadyException ↔ s.is_ready = false) := by
  cases h : s.is_ready_ <;>
    simp [IndexGPUState.representations, IndexGPUState.read_ids,
      IndexGPUState.positions_in_reads, IndexGPUState.directions_of_reads,
      IndexGPUState.unique_representations,
      IndexGPUState.first_occurrence_of_representations,
      IndexGPUState.number_of_reads, IndexGPUState.smallest_read_id,
      IndexGPUState.largest_read_id,
      IndexGPUState.number_of_basepairs_in_longest_read,
      IndexGPUState.is_ready, h]

/-- **C8.** The readiness state transitions only one way, from Building to
Ready, and only `wait_to_be_ready()` performs the transition: both
constructors produce `is_ready() = false` (even if the asynchronous work has
already completed), `wait_to_be_ready()` makes it true, repeated calls are
no-ops, readiness is preserved by every operation sequence, and no sequence
of operations avoiding `wait_to_be_ready` changes the flag. -/
theorem claim_C8 :
    (∀ gen parser first past kmer window p,
      (IndexGPU_generate gen parser first past kmer window p).is_ready = false) ∧
    (∀ c : IndexHostCopy, (IndexGPU_from_host_copy c).is_ready = false) ∧
    (∀ s : IndexGPUState, s.wait_to_be_ready.is_ready = true) ∧
    (∀ s : IndexGPUState, s.wait_to_be_ready.wait_to_be_ready = s.wait_to_be_ready) ∧
    (∀ (ops : List IndexOp) (s : IndexGPUState), s.is_ready = true →
      (applyOps ops s).is_ready = true) ∧
    (∀ (ops : List IndexOp) (s : IndexGPUState), IndexOp.wait_to_be_ready ∉ ops →
      (applyOps ops s).is_ready = s.is_ready) := by
  have hwait : ∀ s : IndexGPUState, s.wait_to_be_ready.is_ready = true := by
    intro s
    cases h : s.is_ready_ <;>
      simp [IndexGPUState.wait_to_be_ready, IndexGPUState.is_ready, h]
  refine ⟨?_, ?_, hwait, ?_, ?_, ?_⟩
  · intro gen parser first past kmer window p
    unfold IndexGPU_generate
    split
    · rfl
    · dsimp only
      split <;> rfl
  · intro c
    rfl
  · intro s
    cases h : s.is_ready_ <;>
      simp [IndexGPUState.wait_to_be_ready, IndexGPUState.is_ready, h]
  · intro ops
    induction ops with
    | nil => intro s h; exact h
    | cons op rest ih =>
      intro s h
      apply ih
      cases op with
      | wait_to_be_ready => exact hwait s
      | read_accessor => exact h
  · intro ops
    induction ops with
    | nil => intro s _; rfl
    | cons op rest ih =>
      intro s h
      cases op with
      | wait_to_be_ready => exact absurd (List.mem_cons_self _ _) h
      | read_accessor =>
        exact ih s (fun hm => h (List.mem_cons_of_mem _ hm))

/-- Witness for C8: a sequence of read accesses on a ready instance keeps it
ready, and a read-only sequence on a fresh instance leaves it building. -/
theorem claim_C8_witness :
    (applyOps [IndexOp.read_accessor]
      ((IndexGPU_from_host_copy ⟨[], [], [], [], [], [0], 0, 4, 4, 0, 0⟩).wait_to_be_ready)).is_ready
        = true ∧
    (applyOps [IndexOp.read_accessor]
      (IndexGPU_from_host_copy ⟨[], [], [], [], [], [0], 0, 4, 4, 0, 0⟩)).is_ready = false := by
  constructor
  · exact claim_C8.2.2.2.2.1 _ _ (claim_C8.2.2.1 _)
  · have h := claim_C8.2.2.2.2.2 [IndexOp.read_accessor]
      (IndexGPU_from_host_copy ⟨[], [], [], [], [], [0], 0, 4, 4, 0, 0⟩)
      (by decide)
    rw [h]
    exact claim_C8.2.1 _

/-- If the read range is empty or every read is too short, `generate_index`
leaves the instance in its zero-initialized state. -/
theorem generate_index_empty (gen : List ℕ → List SketchElement)
    (parser : ℕ → FastaSequence) (first past kmer window : ℕ) (p : ℚ)
    (h : past ≤ first ∨ ∀ read_id, first ≤ read_id → read_id < past →
      (parser read_id).seq.length < window + kmer - 1) :
    IndexGPU_generate gen parser first past kmer window p =
      { representations_d := []
        read_ids_d := []
        positions_in_reads_d := []
        directions_of_reads_d := []
        unique_representations_d := []
        first_occurrence_of_representations_d := []
        first_read_id := first
        kmer_size := kmer
        window_size := window
        number_of_reads_ := 0
        number_of_basepairs_in_longest_read_ := 0
        is_ready_ := false } := by
  unfold IndexGPU_generate
  by_cases hpf : past ≤ first
  · rw [if_pos hpf]
  · rw [if_neg hpf]
    rcases h with h | h
    · exact absurd h hpf
    · have hq : qualifying_read_ids parser first past window kmer = [] := by
        unfold qualifying_read_ids
        rw [List.filter_eq_nil_iff]
        intro a ha
        rw [List.mem_range'_1] at ha
        have hlt : (parser a).seq.length < window + kmer - 1 :=
          h a ha.1 (by omega)
        simp only [decide_eq_true_eq]
        omega
      dsimp only
      rw [hq]
      simp

/-- **C6.** For every construction over an empty read range
(`first_read_id >= past_the_last_read_id`), or one where every read is
shorter than `window_size + kmer_size - 1`, the result is a valid empty
index, not an error: after `wait_to_be_ready` the instance reports ready,
`number_of_reads()` returns 0 and all six arrays have size 0. -/
theorem claim_C6 (gen : List ℕ → List SketchElement)
    (parser : ℕ → FastaSequence) (first past kmer window : ℕ) (p : ℚ)
    (h : past ≤ first ∨ ∀ read_id, first ≤ read_id → read_id < past →
      (parser read_id).seq.length < window + kmer - 1) :
    ((IndexGPU_generate gen parser first past kmer window p).wait_to_be_ready.is_ready
        = true) ∧
    ((IndexGPU_generate gen parser first past kmer window p).wait_to_be_ready.number_of_reads
        = Except.ok 0) ∧
    ((IndexGPU_generate gen parser first past kmer window p).wait_to_be_ready.representations
        = Except.ok []) ∧
    ((IndexGPU_generate gen parser first past kmer window p).wait_to_be_ready.read_ids
        = Except.ok []) ∧
    ((IndexGPU_generate gen parser first past kmer window p).wait_to_be_ready.positions_in_reads
        = Except.ok []) ∧
    ((IndexGPU_generate gen parser first past kmer window p).wait_to_be_ready.directions_of_reads
        = Except.ok []) ∧
    ((IndexGPU_generate gen parser first past kmer window p).wait_to_be_ready.unique_representations
        = Except.ok []) ∧
    ((IndexGPU_generate gen parser first past kmer window p).wait_to_be_ready.first_occurrence_of_representations
        = Except.ok []) := by
  rw [generate_index_empty gen parser first past kmer window p h]
  simp [IndexGPUState.wait_to_be_ready, IndexGPUState.is_ready,
    IndexGPUState.number_of_reads, IndexGPUState.representations,
    IndexGPUState.read_ids, IndexGPUState.positions_in_reads,
    IndexGPUState.directions_of_reads, IndexGPUState.unique_representations,
    IndexGPUState.first_occurrence_of_representations]

/-- Witness for C6 at a concrete input: two reads of 3 basepairs each with
`kmer_size = 4`, `window_size = 1` (window covers 4 basepairs, so both reads
are skipped). -/
theorem claim_C6_witness :
    ((IndexGPU_generate (fun _ => []) (fun _ => ⟨['A', 'C', 'G']⟩) 0 2 4 1
        (1 : ℚ)).wait_to_be_ready.number_of_reads = Except.ok 0) ∧
    ((IndexGPU_generate (fun _ => []) (fun _ => ⟨['A', 'C', 'G']⟩) 0 2 4 1
        (1 : ℚ)).wait_to_be_ready.representations = Except.ok []) := by
  have h := claim_C6 (fun _ => []) (fun _ => ⟨['A', 'C', 'G']⟩) 0 2 4 1 (1 : ℚ)
    (Or.inr (fun read_id _ _ => by simp))
  exact ⟨h.2.1, h.2.2.1⟩

/-- Sum of a list of naturals bounds each member. -/
theorem le_sum_of_mem_nat {l : List ℕ} {x : ℕ} (h : x ∈ l) : x ≤ l.sum := by
  induction l with
  | nil => cases h
  | cons a t ih =>
    rcases List.mem_cons.mp h with rfl | h
    · simp [List.sum_cons]
    · have := ih h
      simp only [List.sum_cons]
      omega

/-- **C9.** If at least one read in the range qualifies (length at least
`window_size + kmer_size - 1`, with that bound positive), `number_of_reads()`
is the full size of the range `past - first`, counting skipped reads too;
consequently `smallest_read_id() = first` and
`largest_read_id() = first + (past - first) - 1`. -/
theorem claim_C9 (gen : List ℕ → List SketchElement)
    (parser : ℕ → FastaSequence) (first past kmer window : ℕ) (p : ℚ)
    (h1 : first < past)
    (h2 : ∃ read_id, first ≤ read_id ∧ read_id < past ∧
      window + kmer - 1 ≤ (parser read_id).seq.length)
    (h3 : 1 ≤ window + kmer - 1) :
    ((IndexGPU_generate gen parser first past kmer window p).wait_to_be_ready.number_of_reads
        = Except.ok (past - first)) ∧
    ((IndexGPU_generate gen parser first past kmer window p).wait_to_be_ready.smallest_read_id
        = Except.ok first) ∧
    ((IndexGPU_generate gen parser first past kmer window p).wait_to_be_ready.largest_read_id
        = Except.ok (first + (past - first) - 1)) := by
  obtain ⟨r, hr1, hr2, hr3⟩ := h2
  have hmem : r ∈ qualifying_read_ids parser first past window kmer := by
    unfold qualifying_read_ids
    rw [List.mem_filter, List.mem_range'_1]
    exact ⟨⟨hr1, by omega⟩, by simpa using hr3⟩
  have hsum : (parser r).seq.length ≤
      ((qualifying_read_ids parser first past window kmer).map
        (fun read_id => (parser read_id).seq.length)).sum :=
    le_sum_of_mem_nat (List.mem_map_of_mem _ hmem)
  have htotal : ((qualifying_read_ids parser first past window kmer).map
      (fun read_id => (parser read_id).seq.length)).sum ≠ 0 := by omega
  unfold IndexGPU_generate
  rw [if_neg (by omega)]
  dsimp only
  rw [if_neg htotal]
  have hn : 0 < past - first := by omega
  simp [IndexGPUState.wait_to_be_ready, IndexGPUState.is_ready,
    IndexGPUState.number_of_reads, IndexGPUState.smallest_read_id,
    IndexGPUState.largest_read_id, hn]

/-- Counterexample to C9 as literally stated: with `kmer_size = 1`,
`window_size = 0` one window covers `0 + 1 - 1 = 0` basepairs, so a
zero-length read qualifies; with a single zero-length read the total
basepair count is 0, `generate_index` returns the empty index
(`index_gpu.cuh:851-859`), and `number_of_reads()` is 0, not
`past_the_last_read_id - first_read_id = 1`. -/
theorem claim_C9_counterexample :
    (∃ read_id, 0 ≤ read_id ∧ read_id < 1 ∧
      0 + 1 - 1 ≤ (((fun _ => ⟨[]⟩) : ℕ → FastaSequence) read_id).seq.length) ∧
    (IndexGPU_generate (fun _ => []) (fun _ => ⟨[]⟩) 0 1 1 0
        (1 : ℚ)).wait_to_be_ready.number_of_reads ≠ Except.ok (1 - 0) := by
  constructor
  · exact ⟨0, le_refl 0, Nat.zero_lt_one, by simp⟩
  · decide

/-- Witness for C9: three reads of which only the middle one (4 basepairs)
qualifies for `kmer_size = 4`, `window_size = 1`. -/
theorem claim_C9_witness :
    ((IndexGPU_generate (fun _ => []) (fun read_id =>
        if read_id = 1 then ⟨['A', 'C', 'G', 'T']⟩ else ⟨['A']⟩) 0 3 4 1
        (1 : ℚ)).wait_to_be_ready.number_of_reads = Except.ok 3) ∧
    ((IndexGPU_generate (fun _ => []) (fun read_id =>
        if read_id = 1 then ⟨['A', 'C', 'G', 'T']⟩ else ⟨['A']⟩) 0 3 4 1
        (1 : ℚ)).wait_to_be_ready.largest_read_id = Except.ok 2) := by
  have h := claim_C9 (fun _ => []) (fun read_id =>
      if read_id = 1 then ⟨['A', 'C', 'G', 'T']⟩ else ⟨['A']⟩) 0 3 4 1 (1 : ℚ)
    (by omega) ⟨1, by omega, by omega, by decide⟩ (by omega)
  exact ⟨h.1, h.2.2⟩

/-! ### Correctness of the grouping step (claim C4) -/

/-- `getD` on a strictly increasing list is strictly monotone. -/
theorem pairwise_getD_lt {l : List ℕ} (h : List.Pairwise (· < ·) l) {i j : ℕ}
    (hij : i < j) (hj : j < l.length) : l.getD i 0 < l.getD j 0 := by
  rw [List.getD_eq_getElem l 0 (lt_trans hij hj), List.getD_eq_getElem l 0 hj]
  exact List.pairwise_iff_get.mp h ⟨i, lt_trans hij hj⟩ ⟨j, hj⟩ hij

/-- `getD` on a sorted list is monotone. -/
theorem pairwise_getD_le {l : List ℕ} (h : List.Pairwise (· ≤ ·) l) {i j : ℕ}
    (hij : i ≤ j) (hj : j < l.length) : l.getD i 0 ≤ l.getD j 0 := by
  rcases Nat.lt_or_ge i j with hlt | hge
  · rw [List.getD_eq_getElem l 0 (lt_trans hlt hj), List.getD_eq_getElem l 0 hj]
    exact List.pairwise_iff_get.mp h ⟨i, lt_trans hlt hj⟩ ⟨j, hj⟩ hlt
  · have : i = j := le_antisymm hij hge
    rw [this]

/-- Membership in `group_boundaries`. -/
theorem mem_group_boundaries {reps : List ℕ} {b : ℕ} :
    b ∈ group_boundaries reps ↔
      b < reps.length ∧ is_group_boundary reps b = true := by
  unfold group_boundaries
  rw [List.mem_filter, List.mem_range]

/-- The group boundaries are strictly increasing. -/
theorem group_boundaries_pairwise (reps : List ℕ) :
    List.Pairwise (· < ·) (group_boundaries reps) :=
  (List.pairwise_lt_range reps.length).filter _

/-- Position 0 is always a group boundary of a nonempty array. -/
theorem group_boundaries_head {reps : List ℕ} (h : 0 < reps.length) :
    ∃ t, group_boundaries reps = 0 :: t := by
  unfold group_boundaries
  obtain ⟨n, hn⟩ := Nat.exists_eq_add_of_lt h
  rw [show reps.length = n + 1 by omega, List.range_succ_eq_map]
  rw [List.filter_cons_of_pos (by unfold is_group_boundary; simp)]
  exact ⟨_, rfl⟩

/-- Every entry of the first-occurrence array is at most `reps.length`. -/
theorem first_occurrence_getD_le (reps : List ℕ) (i : ℕ) :
    ((find_first_occurrences_of_representations reps).2).getD i 0 ≤ reps.length := by
  unfold find_first_occurrences_of_representations
  dsimp only
  by_cases h : i < (group_boundaries reps ++ [reps.length]).length
  · rw [List.getD_eq_getElem _ 0 h]
    have := List.getElem_mem h
    rcases List.mem_append.mp this with hm | hm
    · exact le_of_lt (mem_group_boundaries.mp hm).1
    · rw [List.mem_singleton.mp hm]
  · rw [List.getD_eq_default _ 0 (by omega)]
    exact Nat.zero_le _

/-- Lengths of the two outputs of the grouping step. -/
theorem find_first_occurrences_lengths (reps : List ℕ) :
    (find_first_occurrences_of_representations reps).1.length =
        (group_boundaries reps).length ∧
    (find_first_occurrences_of_representations reps).2.length =
        (group_boundaries reps).length + 1 := by
  unfold find_first_occurrences_of_representations
  simp

/-- The first entry of the first-occurrence array is 0. -/
theorem find_first_occurrences_getD_zero (reps : List ℕ) :
    (find_first_occurrences_of_representations reps).2.getD 0 0 = 0 := by
  unfold find_first_occurrences_of_representations
  rcases Nat.eq_zero_or_pos reps.length with h | h
  · have : reps = [] := List.length_eq_zero.mp h
    subst this
    rfl
  · obtain ⟨t, ht⟩ := group_boundaries_head h
    rw [ht]
    rfl

/-- The last entry of the first-occurrence array is `reps.length`. -/
theorem find_first_occurrences_getD_last (reps : List ℕ) :
    (find_first_occurrences_of_representations reps).2.getD
      (group_boundaries reps).length 0 = reps.length := by
  unfold find_first_occurrences_of_representations
  rw [List.getD_append_right _ _ _ _ (le_refl _)]
  simp

/-- The first-occurrence array is strictly increasing. -/
theorem find_first_occurrences_pairwise (reps : List ℕ) :
    List.Pairwise (· < ·) (find_first_occurrences_of_representations reps).2 := by
  unfold find_first_occurrences_of_representations
  rw [List.pairwise_append]
  refine ⟨group_boundaries_pairwise reps, List.pairwise_singleton _ _, ?_⟩
  intro x hx y hy
  rw [List.mem_singleton.mp hy]
  exact (mem_group_boundaries.mp hx).1

/-- Entries of the first-occurrence array below the sentinel are the group
boundaries. -/
theorem find_first_occurrences_getD_boundary (reps : List ℕ) {i : ℕ}
    (h : i < (group_boundaries reps).length) :
    (find_first_occurrences_of_representations reps).2.getD i 0 =
      (group_boundaries reps).getD i 0 := by
  unfold find_first_occurrences_of_representations
  exact List.getD_append _ _ _ _ h

/-- Each unique representation is the representation at its group boundary. -/
theorem find_first_occurrences_getD_unique (reps : List ℕ) {i : ℕ}
    (h : i < (group_boundaries reps).length) :
    (find_first_occurrences_of_representations reps).1.getD i 0 =
      reps.getD ((group_boundaries reps).getD i 0) 0 := by
  unfold find_first_occurrences_of_representations
  have h' : i < ((group_boundaries reps).map (fun b => reps.getD b 0)).length := by
    simpa using h
  rw [List.getD_eq_getElem _ 0 h', List.getElem_map, ← List.getD_eq_getElem _ 0 h]

/-- On a sorted input, the unique representations are strictly increasing. -/
theorem find_first_occurrences_unique_pairwise {reps : List ℕ}
    (hs : List.Pairwise (· ≤ ·) reps) :
    List.Pairwise (· < ·) (find_first_occurrences_of_representations reps).1 := by
  unfold find_first_occurrences_of_representations
  rw [List.pairwise_map]
  have hgb := group_boundaries_pairwise reps
  refine hgb.imp_of_mem ?_
  intro a b ha hb hab
  obtain ⟨hbn, hbd⟩ := mem_group_boundaries.mp hb
  have hb1 : 1 ≤ b := by omega
  have hbne : reps.getD b 0 ≠ reps.getD (b - 1) 0 := by
    unfold is_group_boundary at hbd
    simp only [Bool.or_eq_true, beq_iff_eq, bne_iff_ne, ne_eq] at hbd
    rcases hbd with h0 | hne
    · omega
    · exact hne
  have hle1 : reps.getD a 0 ≤ reps.getD (b - 1) 0 :=
    pairwise_getD_le hs (by omega) (by omega)
  have hle2 : reps.getD (b - 1) 0 ≤ reps.getD b 0 :=
    pairwise_getD_le hs (by omega) hbn
  omega

/-- Each position has a boundary at or before it carrying the same
representation. -/
theorem boundary_before (reps : List ℕ) :
    ∀ i, i < reps.length → ∃ b, b ≤ i ∧ b ∈ group_boundaries reps ∧
      reps.getD b 0 = reps.getD i 0 := by
  intro i
  induction i using Nat.strong_induction_on with
  | _ i ih =>
    intro hi
    by_cases hb : is_group_boundary reps i = true
    · exact ⟨i, le_refl i, mem_group_boundaries.mpr ⟨hi, hb⟩, rfl⟩
    · unfold is_group_boundary at hb
      simp only [Bool.or_eq_true, beq_iff_eq, bne_iff_ne, ne_eq, not_or,
        not_not] at hb
      obtain ⟨hi0, heq⟩ := hb
      obtain ⟨b, hb1, hb2, hb3⟩ := ih (i - 1) (by omega) (by omega)
      exact ⟨b, by omega, hb2, by rw [hb3, heq]⟩

/-- The unique representations are exactly the values occurring in the
input. -/
theorem find_first_occurrences_mem_iff (reps : List ℕ) (x : ℕ) :
    x ∈ (find_first_occurrences_of_representations reps).1 ↔ x ∈ reps := by
  unfold find_first_occurrences_of_representations
  simp only [List.mem_map]
  constructor
  · rintro ⟨b, hb, rfl⟩
    obtain ⟨hbn, -⟩ := mem_group_boundaries.mp hb
    rw [List.getD_eq_getElem _ 0 hbn]
    exact List.getElem_mem hbn
  · intro hx
    obtain ⟨i, hi, rfl⟩ := List.mem_iff_getElem.mp hx
    obtain ⟨b, -, hb2, hb3⟩ := boundary_before reps i hi
    exact ⟨b, hb2, by rw [hb3, List.getD_eq_getElem _ 0 hi]⟩

/-- **C4.** For every input sorted ascending, the grouping step produces
`unique_representations` strictly ascending with no duplicates, containing
exactly the values of the input, with `unique_representations[i] ==
representations[first_occurrence[i]]`, and `first_occurrence` of length
`m+1`, starting at 0, ending at `n`, strictly increasing; in particular
`m = 0` for `n = 0` and `m = 1` for `n = 1`. -/
theorem claim_C4 (reps : List ℕ) (hs : List.Pairwise (· ≤ ·) reps) :
    List.Pairwise (· < ·) (find_first_occurrences_of_representations reps).1 ∧
    (∀ x, x ∈ (find_first_occurrences_of_representations reps).1 ↔ x ∈ reps) ∧
    (find_first_occurrences_of_representations reps).2.length =
      (find_first_occurrences_of_representations reps).1.length + 1 ∧
    (find_first_occurrences_of_representations reps).2.getD 0 0 = 0 ∧
    (find_first_occurrences_of_representations reps).2.getD
      (find_first_occurrences_of_representations reps).1.length 0 = reps.length ∧
    List.Pairwise (· < ·) (find_first_occurrences_of_representations reps).2 ∧
    (∀ i, i < (find_first_occurrences_of_representations reps).1.length →
      (find_first_occurrences_of_representations reps).1.getD i 0 =
        reps.getD ((find_first_occurrences_of_representations reps).2.getD i 0) 0) ∧
    (reps.length = 0 →
      (find_first_occurrences_of_representations reps).1.length = 0) ∧
    (reps.length = 1 →
      (find_first_occurrences_of_representations reps).1.length = 1) := by
  obtain ⟨hlen1, hlen2⟩ := find_first_occurrences_lengths reps
  refine ⟨find_first_occurrences_unique_pairwise hs,
    find_first_occurrences_mem_iff reps, by rw [hlen2, hlen1],
    find_first_occurrences_getD_zero reps, ?_,
    find_first_occurrences_pairwise reps, ?_, ?_, ?_⟩
  · rw [hlen1]
    exact find_first_occurrences_getD_last reps
  · intro i hi
    rw [hlen1] at hi
    rw [find_first_occurrences_getD_boundary reps hi,
      find_first_occurrences_getD_unique reps hi]
  · intro h
    have : reps = [] := List.length_eq_zero.mp h
    subst this
    rfl
  · intro h
    rw [hlen1]
    obtain ⟨t, ht⟩ := @group_boundaries_head reps (by omega)
    have hsub : ∀ b ∈ group_boundaries reps, b < 1 := by
      intro b hb
      have := (mem_group_boundaries.mp hb).1
      omega
    rw [ht] at hsub ⊢
    rcases t with - | ⟨b, t⟩
    · rfl
    · have hpw := group_boundaries_pairwise reps
      rw [ht] at hpw
      have : 0 < b := (List.pairwise_cons.mp hpw).1 b (List.mem_cons_self _ _)
      have := hsub b (List.mem_cons_of_mem _ (List.mem_cons_self _ _))
      omega

/-- Witness for C4 on the sorted input `[2, 2, 5]`. -/
theorem claim_C4_witness :
    List.Pairwise (· ≤ ·) [2, 2, 5] ∧
    (∀ x, x ∈ (find_first_occurrences_of_representations [2, 2, 5]).1 ↔
      x ∈ [2, 2, 5]) ∧
    (find_first_occurrences_of_representations [2, 2, 5]).2.getD 0 0 = 0 := by
  have h := claim_C4 [2, 2, 5] (by decide)
  exact ⟨by decide, h.2.1, h.2.2.2.1⟩

/-! ### Generic list lemmas used by the filter characterization -/

/-- A fold whose body skips the elements not satisfying `P` is a fold over
the filtered list. -/
theorem foldl_ite_filter {α β : Type _} (P : α → Bool) (f : β → α → β) :
    ∀ (l : List α) (init : β),
      l.foldl (fun acc a => if P a then f acc a else acc) init =
        (l.filter P).foldl f init := by
  intro l
  induction l with
  | nil => intro init; rfl
  | cons a t ih =>
    intro init
    by_cases h : P a
    · rw [List.filter_cons_of_pos h, List.foldl_cons, List.foldl_cons, if_pos h, ih]
    · rw [List.filter_cons_of_neg h, List.foldl_cons, if_neg h, ih]

/-- Summing an indicator counts the filtered elements. -/
theorem sum_map_ite_eq_length_filter (P : ℕ → Bool) :
    ∀ l : List ℕ,
      (l.map (fun i => if P i then (1 : ℕ) else 0)).sum = (l.filter P).length := by
  intro l
  induction l with
  | nil => rfl
  | cons a t ih =>
    by_cases h : P a
    · rw [List.filter_cons_of_pos h, List.map_cons, List.sum_cons, if_pos h,
        List.length_cons, ih]
      omega
    · rw [List.filter_cons_of_neg h, List.map_cons, List.sum_cons, if_neg h, ih]
      omega

/-- Dropping the zero terms of a sum does not change it. -/
theorem sum_map_filter_of_ne (f : ℕ → ℕ) :
    ∀ l : List ℕ,
      ((l.filter (fun i => f i != 0)).map f).sum = (l.map f).sum := by
  intro l
  induction l with
  | nil => rfl
  | cons a t ih =>
    by_cases h : f a = 0
    · rw [List.filter_cons_of_neg (by simp [h]), List.map_cons, List.sum_cons, ih, h]
      omega
    · rw [List.filter_cons_of_pos (by simp [h]), List.map_cons, List.map_cons,
        List.sum_cons, List.sum_cons, ih]

/-- The sum of a prefix as a sum over indices. -/
theorem sum_take_getD :
    ∀ (r : ℕ) (l : List ℕ), r ≤ l.length →
      (l.take r).sum = ((List.range r).map (fun i => l.getD i 0)).sum := by
  intro r
  induction r with
  | zero => intro l _; rfl
  | succ r ih =>
    intro l h
    have hr : r < l.length := by omega
    rw [List.take_succ, List.range_succ, List.map_append, List.sum_append,
      List.sum_append, ih l (by omega)]
    have : l[r]? = some (l.getD r 0) := by
      rw [List.getElem?_eq_getElem hr, List.getD_eq_getElem l 0 hr]
    rw [this]
    simp

/-- `getD` is injective on a list without duplicates. -/
theorem nodup_getD_inj {l : List ℕ} (h : l.Nodup) {i j : ℕ} (hi : i < l.length)
    (hj : j < l.length) (he : l.getD i 0 = l.getD j 0) : i = j := by
  rw [List.getD_eq_getElem l 0 hi, List.getD_eq_getElem l 0 hj] at he
  exact h.getElem_inj_iff.mp he

/-- Decomposition of a filtered range at its `j`-th element `r`: the first
`j` elements are exactly the filtered range below `r`. -/
theorem filter_range_decomp {P : ℕ → Bool} {m j : ℕ}
    (hj : j < ((List.range m).filter P).length) :
    j = ((List.range (((List.range m).filter P).getD j 0)).filter P).length ∧
    ((List.range m).filter P).take j =
      (List.range (((List.range m).filter P).getD j 0)).filter P := by
  obtain ⟨r, hr⟩ : ∃ r, ((List.range m).filter P).getD j 0 = r := ⟨_, rfl⟩
  rw [hr]
  have hr_mem : r ∈ (List.range m).filter P := by
    rw [← hr, List.getD_eq_getElem _ 0 hj]
    exact List.getElem_mem hj
  obtain ⟨hrm, hPr⟩ : r < m ∧ P r = true := by
    have := List.mem_filter.mp hr_mem
    exact ⟨List.mem_range.mp this.1, this.2⟩
  obtain ⟨k, hk⟩ : ∃ k, m = r + (k + 1) := ⟨m - r - 1, by omega⟩
  have hsplit : (List.range m).filter P =
      ((List.range r).filter P) ++
        (r :: ((List.range k).map (fun x => r + Nat.succ x)).filter P) := by
    conv_lhs => rw [hk]
    rw [List.range_add, List.filter_append, List.range_succ_eq_map, List.map_cons,
      List.map_map, List.filter_cons_of_pos (by simpa using hPr)]
    rfl
  have hnodup : ((List.range m).filter P).Nodup := (List.nodup_range m).filter _
  have hslen : ((List.range m).filter P).length =
      ((List.range r).filter P).length +
        ((((List.range k).map (fun x => r + Nat.succ x)).filter P).length + 1) := by
    rw [hsplit]
    simp [List.length_append]
  have hlen_lt : ((List.range r).filter P).length <
      ((List.range m).filter P).length := by omega
  have hgetA : ((List.range m).filter P).getD ((List.range r).filter P).length 0
      = r := by
    conv_lhs => rw [hsplit]
    rw [List.getD_append_right _ _ _ _ (le_refl _)]
    simp
  have hjeq : j = ((List.range r).filter P).length :=
    nodup_getD_inj hnodup hj hlen_lt (hr.trans hgetA.symm)
  refine ⟨hjeq, ?_⟩
  conv_lhs => rw [hsplit]
  rw [hjeq]
  exact List.take_left _ _

/-! ### Characterization of the filter's intermediate arrays -/

theorem adjacent_difference_length (l : List ℕ) :
    (adjacent_difference l).length = l.length := by
  cases l with
  | nil => rfl
  | cons x xs =>
    simp [adjacent_difference, List.length_zipWith]

theorem adjacent_difference_getD (l : List ℕ) {i : ℕ} (hi : i < l.length) :
    (adjacent_difference l).getD i 0 =
      l.getD i 0 - (if i = 0 then 0 else l.getD (i - 1) 0) := by
  cases l with
  | nil => cases hi
  | cons x xs =>
    simp only [adjacent_difference]
    cases i with
    | zero => rfl
    | succ j =>
      have hj : j < xs.length := by simpa using hi
      have hzip : j < (List.zipWith (fun a b => a - b) xs (x :: xs)).length := by
        simp [List.length_zipWith]
        omega
      rw [List.getD_cons_succ, List.getD_eq_getElem _ 0 hzip, List.getElem_zipWith]
      rw [if_neg (Nat.succ_ne_zero j)]
      rw [List.getD_cons_succ, List.getD_eq_getElem _ 0 hj]
      congr 1
      rcases j with - | j
      · rfl
      · rw [Nat.succ_sub_one, List.getD_cons_succ]
        have hj' : j < xs.length := by omega
        rw [List.getD_eq_getElem _ 0 hj']
        rfl

theorem counts_length {fo : List ℕ} {m : ℕ} (hlen : fo.length = m + 1) :
    (number_of_sketch_elements_with_each_representation fo).length = m + 1 := by
  unfold number_of_sketch_elements_with_each_representation
  rw [List.length_append, adjacent_difference_length, List.length_tail, hlen]
  rfl

theorem counts_getD {fo : List ℕ} {m : ℕ} (hlen : fo.length = m + 1)
    (h0 : fo.getD 0 0 = 0) {i : ℕ} (hi : i < m) :
    (number_of_sketch_elements_with_each_representation fo).getD i 0 =
      fo.getD (i + 1) 0 - fo.getD i 0 := by
  unfold number_of_sketch_elements_with_each_representation
  cases fo with
  | nil => simp at hlen
  | cons f0 t =>
    have ht : t.length = m := by simpa using hlen
    have hf0 : f0 = 0 := by simpa using h0
    have hi' : i < (adjacent_difference t).length := by
      rw [adjacent_difference_length]
      omega
    rw [show (f0 :: t).tail = t from rfl,
      List.getD_append _ _ _ _ hi',
      adjacent_difference_getD t (by omega),
      List.getD_cons_succ]
    cases i with
    | zero =>
      rw [if_pos rfl]
      simp [hf0]
    | succ j =>
      rw [if_neg (Nat.succ_ne_zero j), Nat.succ_sub_one, List.getD_cons_succ]

theorem counts_getD_last {fo : List ℕ} {m : ℕ} (hlen : fo.length = m + 1) {i : ℕ}
    (hi : m ≤ i) :
    (number_of_sketch_elements_with_each_representation fo).getD i 0 = 0 := by
  unfold number_of_sketch_elements_with_each_representation
  have hadj : (adjacent_difference fo.tail).length = m := by
    rw [adjacent_difference_length, List.length_tail, hlen]
    omega
  rw [List.getD_append_right _ _ _ _ (by omega)]
  rcases Nat.eq_or_lt_of_le hi with rfl | hlt
  · rw [hadj]
    simp
  · rw [List.getD_eq_default]
    simp only [List.length_singleton]
    omega

theorem replace_length (counts : List ℕ) (thr : ℕ) :
    (replace_filtered_with_zero counts thr).length = counts.length := by
  unfold replace_filtered_with_zero
  rw [List.length_append, List.length_map, List.length_dropLast, List.length_drop]
  omega

theorem replace_getD (counts : List ℕ) (thr : ℕ) {i : ℕ}
    (hi : i < counts.length - 1) :
    (replace_filtered_with_zero counts thr).getD i 0 =
      if thr ≤ counts.getD i 0 then 0 else counts.getD i 0 := by
  unfold replace_filtered_with_zero
  have hi' : i < (counts.dropLast.map
      (fun val => if thr ≤ val then 0 else val)).length := by
    rw [List.length_map, List.length_dropLast]
    omega
  have hid : i < counts.dropLast.length := by
    rw [List.length_dropLast]
    omega
  have hic : i < counts.length := by omega
  rw [List.getD_append _ _ _ _ hi', List.getD_eq_getElem _ 0 hi',
    List.getElem_map, List.getElem_dropLast, ← List.getD_eq_getElem counts 0 hic]

theorem replace_getD_last (counts : List ℕ) (thr : ℕ) {i : ℕ}
    (hi : counts.length - 1 ≤ i) :
    (replace_filtered_with_zero counts thr).getD i 0 = counts.getD i 0 := by
  unfold replace_filtered_with_zero
  have hmap : (counts.dropLast.map
      (fun val => if thr ≤ val then 0 else val)).length = counts.length - 1 := by
    rw [List.length_map, List.length_dropLast]
  rw [List.getD_append_right _ _ _ _ (by omega), hmap]
  rcases Nat.lt_or_ge i counts.length with hlt | hge
  · have h1 : i - (counts.length - 1) = 0 := by omega
    have h2 : counts.length - 1 < counts.length := by omega
    rw [h1]
    have : (counts.drop (counts.length - 1)).getD 0 0 =
        counts.getD (counts.length - 1) 0 := by
      rw [List.getD_eq_getElem _ 0 (by rw [List.length_drop]; omega),
        List.getElem_drop, ← List.getD_eq_getElem counts 0 (by omega)]
      simp
    rw [this]
    congr 1
    omega
  · rw [List.getD_eq_default, List.getD_eq_default counts 0 (by omega)]
    rw [List.length_drop]
    omega

theorem exclusive_scan_length (l : List ℕ) :
    (exclusive_scan l).length = l.length := by
  unfold exclusive_scan
  simp

theorem exclusive_scan_getD (l : List ℕ) {i : ℕ} (hi : i < l.length) :
    (exclusive_scan l).getD i 0 = (l.take i).sum := by
  unfold exclusive_scan
  have hi' : i < ((List.range l.length).map (fun i => (l.take i).sum)).length := by
    simp [hi]
  rw [List.getD_eq_getElem _ 0 hi', List.getElem_map, List.getElem_range]

theorem counts_after_length (fo : List ℕ) (thr : ℕ) {m : ℕ}
    (hlen : fo.length = m + 1) :
    (replace_filtered_with_zero
      (number_of_sketch_elements_with_each_representation fo) thr).length = m + 1 := by
  rw [replace_length, counts_length hlen]

theorem counts_after_getD (fo : List ℕ) (thr : ℕ) {m : ℕ}
    (hlen : fo.length = m + 1) (h0 : fo.getD 0 0 = 0) {i : ℕ} (hi : i < m) :
    (replace_filtered_with_zero
      (number_of_sketch_elements_with_each_representation fo) thr).getD i 0 =
      if thr ≤ fo.getD (i + 1) 0 - fo.getD i 0 then 0
      else fo.getD (i + 1) 0 - fo.getD i 0 := by
  rw [replace_getD _ _ (by rw [counts_length hlen]; omega),
    counts_getD hlen h0 hi]

theorem counts_after_getD_ge (fo : List ℕ) (thr : ℕ) {m : ℕ}
    (hlen : fo.length = m + 1) {i : ℕ} (hi : m ≤ i) :
    (replace_filtered_with_zero
      (number_of_sketch_elements_with_each_representation fo) thr).getD i 0 = 0 := by
  rw [replace_getD_last _ _ (by rw [counts_length hlen]; omega),
    counts_getD_last hlen hi]

theorem new_index_getD (ca : List ℕ) {m r : ℕ} (hr : r ≤ m) :
    (unique_representation_index_after_filtering ca m).getD r 0 =
      ((List.range r).filter (fun i => ca.getD i 0 != 0)).length := by
  unfold unique_representation_index_after_filtering
  have hmask : ((List.range (m + 1)).map
      (fun i => if i < m then (if ca.getD i 0 = 0 then 0 else 1) else 0)).length
        = m + 1 := by simp
  rw [exclusive_scan_getD _ (by rw [hmask]; omega), ← List.map_take,
    List.take_range, Nat.min_eq_left (by omega)]
  have hcongr : (List.range r).map
      (fun i => if i < m then (if ca.getD i 0 = 0 then 0 else 1) else 0) =
      (List.range r).map
        (fun i => if (ca.getD i 0 != 0) = true then (1 : ℕ) else 0) := by
    apply List.map_congr_left
    intro a ha
    have ham : a < m := by
      have := List.mem_range.mp ha
      omega
    rw [if_pos ham]
    by_cases h : ca.getD a 0 = 0
    · simp [h]
    · simp [h]
  rw [hcongr, sum_map_ite_eq_length_filter]

theorem fo_filt_getD (ca : List ℕ) {m r : ℕ} (hca : ca.length = m + 1)
    (hr : r ≤ m) :
    (exclusive_scan ca).getD r 0 =
      (((List.range r).filter (fun i => ca.getD i 0 != 0)).map
        (fun i => ca.getD i 0)).sum := by
  rw [exclusive_scan_getD _ (by omega), sum_take_getD r ca (by omega),
    sum_map_filter_of_ne]

theorem mem_kept_list {ca : List ℕ} {m i : ℕ} :
    i ∈ kept_list ca m ↔ i < m ∧ ca.getD i 0 ≠ 0 := by
  unfold kept_list
  rw [List.mem_filter, List.mem_range]
  simp

/-- Writing consecutive slices at their exclusive-prefix-sum offsets into a
fresh buffer tiles the buffer with the concatenation of the slices. -/
theorem foldl_write_slice_tiling {α : Type} (d : α) (off : ℕ → ℕ) (sl : ℕ → List α) :
    ∀ (ks : List ℕ) (done : List α),
      (∀ j, j < ks.length →
        off (ks.getD j 0) =
          done.length + ((ks.take j).map (fun r => (sl r).length)).sum) →
      ks.foldl (fun dst r => write_slice dst (off r) (sl r))
        (done ++ List.replicate ((ks.map (fun r => (sl r).length)).sum) d) =
        done ++ (ks.map sl).flatten := by
  intro ks
  induction ks with
  | nil => intro done _; simp
  | cons r ks ih =>
    intro done h
    have h0 : off r = done.length := by
      have := h 0 (by simp)
      simpa using this
    rw [List.foldl_cons]
    have hstep :
        write_slice (done ++ List.replicate
            (((r :: ks).map (fun r => (sl r).length)).sum) d) (off r) (sl r) =
          (done ++ sl r) ++
            List.replicate ((ks.map (fun r => (sl r).length)).sum) d := by
      unfold write_slice
      rw [h0]
      rw [List.take_left]
      have hdrop : (done ++ List.replicate
          (((r :: ks).map (fun r => (sl r).length)).sum) d).drop
            (done.length + (sl r).length) =
          List.replicate ((ks.map (fun r => (sl r).length)).sum) d := by
        rw [← List.drop_drop, List.drop_left, List.drop_replicate]
        congr 1
        simp only [List.map_cons, List.sum_cons]
        omega
      rw [hdrop, List.append_assoc]
    rw [hstep, ih (done ++ sl r) ?_]
    · rw [List.map_cons, List.flatten_cons, List.append_assoc]
    · intro j hj
      have := h (j + 1) (by simpa using Nat.succ_lt_succ hj)
      rw [List.getD_cons_succ] at this
      rw [this, List.take_succ_cons, List.map_cons, List.sum_cons,
        List.length_append]
      omega

theorem kept_list_eq_filter (ca : List ℕ) (m : ℕ) :
    kept_list ca m = (List.range m).filter (fun i => ca.getD i 0 != 0) := rfl

/-- A fold that skips the zero-count representations is a fold over
`kept_list`. -/
theorem foldl_skip_zero_filter {α : Type} (ca : List ℕ) (W : List α → ℕ → List α)
    (m : ℕ) (init : List α) :
    (List.range m).foldl
      (fun dst r => if ca.getD r 0 = 0 then dst else W dst r) init =
      (kept_list ca m).foldl W init := by
  rw [kept_list_eq_filter, ← foldl_ite_filter]
  congr 1
  funext dst r
  by_cases h : ca.getD r 0 = 0 <;> simp [h]

/-- The data-compaction kernel writes exactly the concatenation of the
surviving groups' slices: one contiguous block per kept representation, in
order. -/
theorem compress_data_eq_flatten {α : Type} (fo ca : List ℕ) (m thr : ℕ)
    (src : List α) (d : α)
    (hca : ca = replace_filtered_with_zero
      (number_of_sketch_elements_with_each_representation fo) thr)
    (hlen : fo.length = m + 1) (h0 : fo.getD 0 0 = 0)
    (hpw : List.Pairwise (· < ·) fo) (hsrc : src.length = fo.getD m 0) :
    compress_data_arrays_after_filtering_kernel m ca fo
      ((kept_list ca m).map (fun i => (exclusive_scan ca).getD i 0) ++
        [(exclusive_scan ca).getD m 0])
      (unique_representation_index_after_filtering ca m) src
      (List.replicate ((exclusive_scan ca).getD m 0) d) =
      ((kept_list ca m).map
        (fun r => (src.drop (fo.getD r 0)).take (ca.getD r 0))).flatten := by
  have hcalen : ca.length = m + 1 := by
    rw [hca]
    exact counts_after_length fo thr hlen
  have hca_le : ∀ r, r < m → ca.getD r 0 ≤ fo.getD (r + 1) 0 - fo.getD r 0 := by
    intro r hrm
    rw [hca, counts_after_getD fo thr hlen h0 hrm]
    split <;> omega
  have hfo_mono : ∀ i j, i ≤ j → j ≤ m → fo.getD i 0 ≤ fo.getD j 0 := by
    intro i j hij hj
    exact pairwise_getD_le (hpw.imp (fun h => le_of_lt h)) hij (by omega)
  have hslice_len : ∀ r, r < m →
      ((src.drop (fo.getD r 0)).take (ca.getD r 0)).length = ca.getD r 0 := by
    intro r hrm
    rw [List.length_take, List.length_drop, hsrc]
    have h1 := hca_le r hrm
    have h2 := hfo_mono r (r + 1) (by omega) (by omega)
    have h3 := hfo_mono (r + 1) m (by omega) (le_refl m)
    omega
  show (List.range m).foldl
      (fun dst r => if ca.getD r 0 = 0 then dst
        else write_slice dst
          (((kept_list ca m).map (fun i => (exclusive_scan ca).getD i 0) ++
            [(exclusive_scan ca).getD m 0]).getD
            ((unique_representation_index_after_filtering ca m).getD r 0) 0)
          ((src.drop (fo.getD r 0)).take (ca.getD r 0)))
      (List.replicate ((exclusive_scan ca).getD m 0) d) = _
  rw [foldl_skip_zero_filter]
  have hN : (exclusive_scan ca).getD m 0 =
      ((kept_list ca m).map
        (fun r => ((src.drop (fo.getD r 0)).take (ca.getD r 0)).length)).sum := by
    rw [fo_filt_getD ca hcalen (le_refl m), ← kept_list_eq_filter]
    apply congrArg List.sum
    apply List.map_congr_left
    intro r hr
    exact (hslice_len r (mem_kept_list.mp hr).1).symm
  nth_rewrite 2 [hN]
  have htile := foldl_write_slice_tiling d
    (fun r => ((kept_list ca m).map (fun i => (exclusive_scan ca).getD i 0) ++
      [(exclusive_scan ca).getD m 0]).getD
        ((unique_representation_index_after_filtering ca m).getD r 0) 0)
    (fun r => (src.drop (fo.getD r 0)).take (ca.getD r 0))
    (kept_list ca m) [] ?_
  · simpa using htile
  · intro j hj
    dsimp only
    obtain ⟨hjeq, htake⟩ :=
      @filter_range_decomp (fun i => ca.getD i 0 != 0) m j
        (by rw [← kept_list_eq_filter]; exact hj)
    rw [← kept_list_eq_filter ca m] at hjeq htake
    have hrmem : (kept_list ca m).getD j 0 ∈ kept_list ca m := by
      rw [List.getD_eq_getElem _ 0 hj]
      exact List.getElem_mem hj
    obtain ⟨hrm, hrne⟩ := mem_kept_list.mp hrmem
    have hni : (unique_representation_index_after_filtering ca m).getD
        ((kept_list ca m).getD j 0) 0 = j := by
      rw [new_index_getD ca (le_of_lt hrm)]
      exact hjeq.symm
    rw [hni]
    have hmaplen : ((kept_list ca m).map
        (fun i => (exclusive_scan ca).getD i 0)).length = (kept_list ca m).length := by
      simp
    have hfoc : (((kept_list ca m).map (fun i => (exclusive_scan ca).getD i 0) ++
        [(exclusive_scan ca).getD m 0]).getD j 0) =
        (exclusive_scan ca).getD ((kept_list ca m).getD j 0) 0 := by
      rw [List.getD_append _ _ _ _ (by rw [hmaplen]; exact hj),
        List.getD_eq_getElem _ 0 (by rw [hmaplen]; exact hj), List.getElem_map,
        ← List.getD_eq_getElem _ 0 hj]
    rw [hfoc, fo_filt_getD ca hcalen (le_of_lt hrm), ← htake]
    have hcongr : ((kept_list ca m).take j).map (fun i => ca.getD i 0) =
        ((kept_list ca m).take j).map
          (fun r => ((src.drop (fo.getD r 0)).take (ca.getD r 0)).length) := by
      apply List.map_congr_left
      intro r hr
      have hrk : r ∈ kept_list ca m := List.mem_of_mem_take hr
      exact (hslice_len r (mem_kept_list.mp hrk).1).symm
    rw [hcongr]
    simp

theorem foC_last (ca ff : List ℕ) (m : ℕ) :
    ((kept_list ca m).map (fun i => ff.getD i 0) ++ [ff.getD m 0]).getD
      (((kept_list ca m).map (fun i => ff.getD i 0) ++ [ff.getD m 0]).length - 1) 0 =
      ff.getD m 0 := by
  rw [List.length_append, List.length_map, List.length_singleton,
    List.getD_append_right _ _ _ _ (by rw [List.length_map]; omega)]
  simp

/-- Full characterization of the frequency filter on a well-formed index:
the surviving unique representations, their new first-occurrence offsets, and
the four data arrays as the concatenation of the surviving groups' slices. -/
theorem filter_out_with_threshold_eq (thr : ℕ) (A : IndexArrays)
    (hlen : A.first_occurrence_of_representations.length =
      A.unique_representations.length + 1)
    (h0 : A.first_occurrence_of_representations.getD 0 0 = 0)
    (hpw : List.Pairwise (· < ·) A.first_occurrence_of_representations)
    (hreps : A.representations.length =
      A.first_occurrence_of_representations.getD A.unique_representations.length 0)
    (hrids : A.read_ids.length =
      A.first_occurrence_of_representations.getD A.unique_representations.length 0)
    (hposs : A.positions_in_reads.length =
      A.first_occurrence_of_representations.getD A.unique_representations.length 0)
    (hdirs : A.directions_of_reads.length =
      A.first_occurrence_of_representations.getD A.unique_representations.length 0) :
    filter_out_with_threshold thr A =
      { representations := ((kept_list
          (replace_filtered_with_zero
            (number_of_sketch_elements_with_each_representation
              A.first_occurrence_of_representations) thr)
          A.unique_representations.length).map
          (fun r => (A.representations.drop
            (A.first_occurrence_of_representations.getD r 0)).take
            ((replace_filtered_with_zero
              (number_of_sketch_elements_with_each_representation
                A.first_occurrence_of_representations) thr).getD r 0))).flatten
        read_ids := ((kept_list
          (replace_filtered_with_zero
            (number_of_sketch_elements_with_each_representation
              A.first_occurrence_of_representations) thr)
          A.unique_representations.length).map
          (fun r => (A.read_ids.drop
            (A.first_occurrence_of_representations.getD r 0)).take
            ((replace_filtered_with_zero
              (number_of_sketch_elements_with_each_representation
                A.first_occurrence_of_representations) thr).getD r 0))).flatten
        positions_in_reads := ((kept_list
          (replace_filtered_with_zero
            (number_of_sketch_elements_with_each_representation
              A.first_occurrence_of_representations) thr)
          A.unique_representations.length).map
          (fun r => (A.positions_in_reads.drop
            (A.first_occurrence_of_representations.getD r 0)).take
            ((replace_filtered_with_zero
              (number_of_sketch_elements_with_each_representation
                A.first_occurrence_of_representations) thr).getD r 0))).flatten
        directions_of_reads := ((kept_list
          (replace_filtered_with_zero
            (number_of_sketch_elements_with_each_representation
              A.first_occurrence_of_representations) thr)
          A.unique_representations.length).map
          (fun r => (A.directions_of_reads.drop
            (A.first_occurrence_of_representations.getD r 0)).take
            ((replace_filtered_with_zero
              (number_of_sketch_elements_with_each_representation
                A.first_occurrence_of_representations) thr).getD r 0))).flatten
        unique_representations := (kept_list
          (replace_filtered_with_zero
            (number_of_sketch_elements_with_each_representation
              A.first_occurrence_of_representations) thr)
          A.unique_representations.length).map
          (fun i => A.unique_representations.getD i 0)
        first_occurrence_of_representations := (kept_list
          (replace_filtered_with_zero
            (number_of_sketch_elements_with_each_representation
              A.first_occurrence_of_representations) thr)
          A.unique_representations.length).map
          (fun i => (exclusive_scan
            (replace_filtered_with_zero
              (number_of_sketch_elements_with_each_representation
                A.first_occurrence_of_representations) thr)).getD i 0) ++
          [(exclusive_scan
            (replace_filtered_with_zero
              (number_of_sketch_elements_with_each_representation
                A.first_occurrence_of_representations) thr)).getD
            A.unique_representations.length 0] } := by
  unfold filter_out_with_threshold compress_unique_representations_after_filtering
  dsimp only
  rw [foC_last]
  congr 1
  · exact compress_data_eq_flatten _ _ _ thr _ 0 rfl hlen h0 hpw hreps
  · exact compress_data_eq_flatten _ _ _ thr _ 0 rfl hlen h0 hpw hrids
  · exact compress_data_eq_flatten _ _ _ thr _ 0 rfl hlen h0 hpw hposs
  · exact compress_data_eq_flatten _ _ _ thr _ false rfl hlen h0 hpw hdirs

/-- The arrays produced by the unfiltered pipeline satisfy the structural
invariants required by the filter: first-occurrence array of length `m + 1`,
starting at 0, strictly increasing, and bounding all four data arrays. -/
theorem build_arrays_unfiltered_valid (elems : List SketchElement) :
    (build_arrays_unfiltered elems).first_occurrence_of_representations.length =
      (build_arrays_unfiltered elems).unique_representations.length + 1 ∧
    (build_arrays_unfiltered elems).first_occurrence_of_representations.getD 0 0
      = 0 ∧
    List.Pairwise (· < ·)
      (build_arrays_unfiltered elems).first_occurrence_of_representations ∧
    (build_arrays_unfiltered elems).representations.length =
      (build_arrays_unfiltered elems).first_occurrence_of_representations.getD
        (build_arrays_unfiltered elems).unique_representations.length 0 ∧
    (build_arrays_unfiltered elems).read_ids.length =
      (build_arrays_unfiltered elems).first_occurrence_of_representations.getD
        (build_arrays_unfiltered elems).unique_representations.length 0 ∧
    (build_arrays_unfiltered elems).positions_in_reads.length =
      (build_arrays_unfiltered elems).first_occurrence_of_representations.getD
        (build_arrays_unfiltered elems).unique_representations.length 0 ∧
    (build_arrays_unfiltered elems).directions_of_reads.length =
      (build_arrays_unfiltered elems).first_occurrence_of_representations.getD
        (build_arrays_unfiltered elems).unique_representations.length 0 := by
  unfold build_arrays_unfiltered
  dsimp only
  obtain ⟨hlen1, hlen2⟩ := find_first_occurrences_lengths
    ((sort_sketch_elements elems).map (fun e => e.representation))
  have hlast : (find_first_occurrences_of_representations
      ((sort_sketch_elements elems).map (fun e => e.representation))).2.getD
      (find_first_occurrences_of_representations
        ((sort_sketch_elements elems).map (fun e => e.representation))).1.length 0 =
      ((sort_sketch_elements elems).map (fun e => e.representation)).length := by
    rw [hlen1]
    exact find_first_occurrences_getD_last _
  refine ⟨by omega, find_first_occurrences_getD_zero _,
    find_first_occurrences_pairwise _, hlast.symm, ?_, ?_, ?_⟩ <;>
    rw [hlast] <;> simp

/-- With threshold 0 every post-replace count is zero. -/
theorem counts_after_zero_thr (fo : List ℕ) {m : ℕ} (hlen : fo.length = m + 1)
    (h0 : fo.getD 0 0 = 0) (i : ℕ) :
    (replace_filtered_with_zero
      (number_of_sketch_elements_with_each_representation fo) 0).getD i 0 = 0 := by
  rcases Nat.lt_or_ge i m with hi | hi
  · rw [counts_after_getD fo 0 hlen h0 hi, if_pos (Nat.zero_le _)]
  · exact counts_after_getD_ge fo 0 hlen hi

/-- With threshold 0 no representation survives. -/
theorem kept_list_zero_thr (fo : List ℕ) {m : ℕ} (hlen : fo.length = m + 1)
    (h0 : fo.getD 0 0 = 0) :
    kept_list (replace_filtered_with_zero
      (number_of_sketch_elements_with_each_representation fo) 0) m = [] := by
  rw [kept_list_eq_filter, List.filter_eq_nil_iff]
  intro i _
  rw [counts_after_zero_thr fo hlen h0 i]
  simp

/-- `filtering_parameter = 0` gives threshold 0. -/
theorem filtering_threshold_zero (n : ℕ) : filtering_threshold n 0 = 0 := by
  unfold filtering_threshold
  rw [mul_zero, zero_add, Nat.floor_eq_zero]
  norm_num

/-- **C10.** For every construction that generates at least one sketch
element, `filtering_parameter == 0.0` removes every representation: the
threshold is `floor(0 * n + 0.001) = 0`, every count is `>= 0`, so all four
data arrays become empty, `unique_representations` is empty, and
`first_occurrence_of_representations` is `[0]`. -/
theorem claim_C10 (elems : List SketchElement) (hne : elems ≠ []) :
    filtering_threshold elems.length 0 = 0 ∧
    (build_arrays elems 0).representations = [] ∧
    (build_arrays elems 0).read_ids = [] ∧
    (build_arrays elems 0).positions_in_reads = [] ∧
    (build_arrays elems 0).directions_of_reads = [] ∧
    (build_arrays elems 0).unique_representations = [] ∧
    (build_arrays elems 0).first_occurrence_of_representations = [0] := by
  obtain ⟨hlen, h0, hpw, hreps, hrids, hposs, hdirs⟩ :=
    build_arrays_unfiltered_valid elems
  have hb : build_arrays elems 0 =
      filter_out_with_threshold 0 (build_arrays_unfiltered elems) := by
    unfold build_arrays filter_out_most_common_representations
    rw [if_pos (by norm_num : (0 : ℚ) < 1), filtering_threshold_zero]
  have heq := filter_out_with_threshold_eq 0 (build_arrays_unfiltered elems)
    hlen h0 hpw hreps hrids hposs hdirs
  have hkept := kept_list_zero_thr
    (build_arrays_unfiltered elems).first_occurrence_of_representations hlen h0
  have hsent : (exclusive_scan (replace_filtered_with_zero
      (number_of_sketch_elements_with_each_representation
        (build_arrays_unfiltered elems).first_occurrence_of_representations) 0)).getD
      (build_arrays_unfiltered elems).unique_representations.length 0 = 0 := by
    have hcalen := counts_after_length
      (build_arrays_unfiltered elems).first_occurrence_of_representations 0 hlen
    rw [exclusive_scan_getD _ (by omega)]
    apply List.sum_eq_zero
    intro x hx
    obtain ⟨i, hi, rfl⟩ := List.mem_iff_getElem.mp (List.mem_of_mem_take hx)
    rw [← List.getD_eq_getElem _ 0 hi]
    exact counts_after_zero_thr _ hlen h0 i
  rw [hb, heq, hkept, hsent]
  refine ⟨filtering_threshold_zero elems.length, rfl, rfl, rfl, rfl, rfl, rfl⟩

/-- Witness for C10 on a one-element input. -/
theorem claim_C10_witness :
    filtering_threshold ([⟨1, 2, 3, true⟩] : List SketchElement).length 0 = 0 ∧
    (build_arrays [⟨1, 2, 3, true⟩] 0).representations = [] ∧
    (build_arrays [⟨1, 2, 3, true⟩] 0).unique_representations = [] := by
  have h := claim_C10 [⟨1, 2, 3, true⟩] (by simp)
  exact ⟨h.1, h.2.1, h.2.2.2.2.2.1⟩

/-- Membership of an original unique representation in the filtered index is
exactly "its occurrence count is below the threshold". -/
theorem mem_filtered_unique_iff (thr : ℕ) (A : IndexArrays)
    (hlen : A.first_occurrence_of_representations.length =
      A.unique_representations.length + 1)
    (h0 : A.first_occurrence_of_representations.getD 0 0 = 0)
    (hpw : List.Pairwise (· < ·) A.first_occurrence_of_representations)
    (hnodup : A.unique_representations.Nodup)
    {i : ℕ} (hi : i < A.unique_representations.length) :
    A.unique_representations.getD i 0 ∈
      (filter_out_with_threshold thr A).unique_representations ↔
      A.first_occurrence_of_representations.getD (i + 1) 0 -
        A.first_occurrence_of_representations.getD i 0 < thr := by
  have huniq : (filter_out_with_threshold thr A).unique_representations =
      (kept_list (replace_filtered_with_zero
        (number_of_sketch_elements_with_each_representation
          A.first_occurrence_of_representations) thr)
        A.unique_representations.length).map
        (fun i => A.unique_representations.getD i 0) := rfl
  have hcnt_pos : 1 ≤ A.first_occurrence_of_representations.getD (i + 1) 0 -
      A.first_occurrence_of_representations.getD i 0 := by
    have := pairwise_getD_lt hpw (show i < i + 1 by omega) (by omega)
    omega
  have hca := counts_after_getD A.first_occurrence_of_representations thr hlen h0 hi
  rw [huniq]
  constructor
  · intro hm
    obtain ⟨r, hr, heq⟩ := List.mem_map.mp hm
    obtain ⟨hrm, hrne⟩ := mem_kept_list.mp hr
    have hri : r = i := nodup_getD_inj hnodup hrm hi heq
    rw [hri] at hrne
    rw [hca] at hrne
    by_contra hcnt
    rw [if_pos (by omega)] at hrne
    exact hrne rfl
  · intro hcnt
    apply List.mem_map.mpr
    refine ⟨i, mem_kept_list.mpr ⟨hi, ?_⟩, rfl⟩
    rw [hca, if_neg (by omega)]
    omega

/-- The sorted representations are pairwise `≤`. -/
theorem sorted_representations (elems : List SketchElement) :
    List.Pairwise (· ≤ ·)
      ((sort_sketch_elements elems).map (fun e => e.representation)) := by
  unfold sort_sketch_elements
  rw [List.pairwise_map]
  have h := @List.sorted_mergeSort SketchElement
    (fun a b => decide (a.representation ≤ b.representation))
    (fun a b c hab hbc => by
      simp only [decide_eq_true_eq] at hab hbc ⊢
      omega)
    (fun a b => by
      simp only [Bool.or_eq_true, decide_eq_true_eq]
      omega)
    elems
  exact h.imp (fun hab => by simpa using hab)

/-- The unique representations of the unfiltered pipeline have no
duplicates. -/
theorem build_arrays_unfiltered_unique_nodup (elems : List SketchElement) :
    (build_arrays_unfiltered elems).unique_representations.Nodup := by
  unfold build_arrays_unfiltered
  dsimp only
  exact (find_first_occurrences_unique_pairwise
    (sorted_representations elems)).imp (fun h => ne_of_lt h)

/-- **C1.** For every index built with `filtering_parameter p < 1.0` over `n`
total sketch elements, the frequency filter computes
`filtering_threshold = floor(n * p + 0.001)`, and a representation survives
the filter if and only if its occurrence count is `<` the threshold
(equivalently, it is removed iff its count `>=` the threshold, the inclusive
tie-break). -/
theorem claim_C1 (elems : List SketchElement) (p : ℚ) (hp : p < 1) :
    filtering_threshold elems.length p =
      ⌊(elems.length : ℚ) * p + 1 / 1000⌋₊ ∧
    ∀ i, i < (build_arrays_unfiltered elems).unique_representations.length →
      ((build_arrays_unfiltered elems).unique_representations.getD i 0 ∈
          (build_arrays elems p).unique_representations ↔
        (build_arrays_unfiltered elems).first_occurrence_of_representations.getD
            (i + 1) 0 -
          (build_arrays_unfiltered elems).first_occurrence_of_representations.getD
            i 0 < filtering_threshold elems.length p) := by
  obtain ⟨hlen, h0, hpw, hreps, -, -, -⟩ := build_arrays_unfiltered_valid elems
  have hn : (build_arrays_unfiltered elems).representations.length =
      elems.length := by
    unfold build_arrays_unfiltered sort_sketch_elements
    simp
  have hb : build_arrays elems p =
      filter_out_with_threshold (filtering_threshold elems.length p)
        (build_arrays_unfiltered elems) := by
    unfold build_arrays filter_out_most_common_representations
    rw [if_pos hp, hn]
  refine ⟨rfl, ?_⟩
  intro i hi
  rw [hb]
  exact mem_filtered_unique_iff (filtering_threshold elems.length p)
    (build_arrays_unfiltered elems) hlen h0 hpw
    (build_arrays_unfiltered_unique_nodup elems) hi

/-- Witness for C1 on a one-element index with `p = 1/2`: the threshold is
`floor(0.501) = 0`, the single representation has count `1 >= 0` and is
removed. -/
theorem claim_C1_witness :
    (build_arrays_unfiltered [⟨3, 7, 5, true⟩]).unique_representations.getD 0 0 ∈
        (build_arrays [⟨3, 7, 5, true⟩] (1 / 2)).unique_representations ↔
      (build_arrays_unfiltered
          [⟨3, 7, 5, true⟩]).first_occurrence_of_representations.getD 1 0 -
        (build_arrays_unfiltered
          [⟨3, 7, 5, true⟩]).first_occurrence_of_representations.getD 0 0 <
        filtering_threshold ([⟨3, 7, 5, true⟩] : List SketchElement).length (1 / 2) :=
  (claim_C1 [⟨3, 7, 5, true⟩] (1 / 2) (by norm_num)).2 0 (by
    unfold build_arrays_unfiltered sort_sketch_elements
    rw [List.mergeSort_singleton]
    decide)

/-- **C2.** Running the frequency filter on the concrete input
`representations = [5,5,5,5,9,9,3,3,3,3,3]` (11 elements, already grouped)
with `filtering_parameter = 0.3` yields threshold 3; the groups of value 5
(count 4) and value 3 (count 5) are removed, the group of value 9 (count 2)
is kept, so the output data arrays contain exactly the two elements of
representation 9, `unique_representations = [9]` and
`first_occurrence = [0, 2]`.  The second conjunct checks that the given
grouping arrays are exactly what the grouping step produces for this input. -/
theorem claim_C2 :
    filtering_threshold 11 (3 / 10) = 3 ∧
    find_first_occurrences_of_representations scenarioA.representations =
      (scenarioA.unique_representations,
       scenarioA.first_occurrence_of_representations) ∧
    filter_out_most_common_representations (3 / 10) scenarioA =
      { representations := [9, 9]
        read_ids := [14, 15]
        positions_in_reads := [4, 5]
        directions_of_reads := [false, true]
        unique_representations := [9]
        first_occurrence_of_representations := [0, 2] } := by
  have hlen : scenarioA.representations.length = 11 := rfl
  have hthr : filtering_threshold 11 (3 / 10) = 3 := by
    unfold filtering_threshold
    rw [Nat.floor_eq_iff (by norm_num)]
    norm_num
  refine ⟨hthr, by decide, ?_⟩
  rw [filter_out_most_common_representations, hlen, hthr]
  decide

/-! ### Stability of the sort and survival of the emission order (claim C5) -/

theorem read_order_le_refl (a : SketchElement) : read_order_le a a :=
  Or.inr ⟨rfl, le_refl _⟩

/-- In a list ordered by emission order, if `read_order_le a b` fails then
every occurrence of `b` precedes every occurrence of `a`: the sublist
consisting of all the `b`s followed by all the `a`s. -/
theorem replicate_count_sublist {a b : SketchElement} (hno : ¬ read_order_le a b) :
    ∀ l : List SketchElement, List.Pairwise read_order_le l →
      List.Sublist
        (List.replicate (l.count b) b ++ List.replicate (l.count a) a) l := by
  have hne : a ≠ b := fun he => hno (he ▸ read_order_le_refl a)
  intro l
  induction l with
  | nil => intro _; simp
  | cons x t ih =>
    intro hp
    obtain ⟨hhead, hpt⟩ := List.pairwise_cons.mp hp
    by_cases hxb : b = x
    · subst hxb
      rw [List.count_cons_self, List.count_cons_of_ne hne, List.replicate_succ,
        List.cons_append]
      exact (ih hpt).cons₂ b
    · by_cases hxa : a = x
      · subst hxa
        have hbt : b ∉ t := fun hbt => hno (hhead b hbt)
        have hcb : t.count b = 0 := List.count_eq_zero.mpr hbt
        rw [List.count_cons_of_ne hxb, List.count_cons_self, hcb,
          List.replicate_zero, List.nil_append, List.replicate_succ]
        have := ih hpt
        rw [hcb, List.replicate_zero, List.nil_append] at this
        exact this.cons₂ a
      · rw [List.count_cons_of_ne hxb, List.count_cons_of_ne hxa]
        exact (ih hpt).cons x

/-- Two positions `i < j` of a list give the two-element sublist
`[l[i], l[j]]`. -/
theorem pair_sublist_of_lt {α : Type} :
    ∀ (l : List α) (i j : ℕ) (hi : i < l.length) (hj : j < l.length), i < j →
      List.Sublist [l.get ⟨i, hi⟩, l.get ⟨j, hj⟩] l := by
  intro l
  induction l with
  | nil =>
    intro i j hi
    simp at hi
  | cons x t ih =>
    intro i j hi hj hij
    cases j with
    | zero => omega
    | succ jt =>
      cases i with
      | zero =>
        have hmem : t.get ⟨jt, by simpa using hj⟩ ∈ t := List.get_mem t jt _
        exact List.Sublist.cons₂ x (List.singleton_sublist.mpr hmem)
      | succ it =>
        exact (ih it jt (by simpa using hi) (by simpa using hj) (by omega)).cons x

/-- Stability of the sort: any two elements of the sorted array sharing a
representation appear in emission order (`thrust::stable_sort_by_key`;
`index_gpu.cuh:922-931`). -/
theorem sorted_pairwise_run_rel (elems : List SketchElement)
    (h : List.Pairwise read_order_le elems) :
    List.Pairwise
      (fun a b => a.representation = b.representation → read_order_le a b)
      (sort_sketch_elements elems) := by
  rw [List.pairwise_iff_get]
  intro fi fj hij
  intro hrep
  by_contra hno
  obtain ⟨a, ha⟩ : ∃ x, (sort_sketch_elements elems).get fi = x := ⟨_, rfl⟩
  obtain ⟨b, hb⟩ : ∃ x, (sort_sketch_elements elems).get fj = x := ⟨_, rfl⟩
  rw [ha, hb] at hrep hno
  have hc := replicate_count_sublist hno elems h
  have htrans : ∀ a b c : SketchElement,
      decide (a.representation ≤ b.representation) →
      decide (b.representation ≤ c.representation) →
      decide (a.representation ≤ c.representation) := fun a b c hab hbc => by
    simp only [decide_eq_true_eq] at hab hbc ⊢
    omega
  have htotal : ∀ a b : SketchElement,
      decide (a.representation ≤ b.representation) ||
        decide (b.representation ≤ a.representation) := fun a b => by
    simp only [Bool.or_eq_true, decide_eq_true_eq]
    omega
  have hpc : List.Pairwise
      (fun x y => decide (x.representation ≤ y.representation) = true)
      (List.replicate (elems.count b) b ++ List.replicate (elems.count a) a) := by
    rw [List.pairwise_append]
    refine ⟨?_, ?_, ?_⟩
    · rw [List.pairwise_replicate]
      right
      simp
    · rw [List.pairwise_replicate]
      right
      simp
    · intro x hx y hy
      rw [List.eq_of_mem_replicate hx, List.eq_of_mem_replicate hy]
      exact decide_eq_true (le_of_eq hrep.symm)
  have hcs : List.Sublist
      (List.replicate (elems.count b) b ++ List.replicate (elems.count a) a)
      (sort_sketch_elements elems) :=
    List.sublist_mergeSort htrans htotal hpc hc
  obtain ⟨r₁, r₂, hS, hb1, ha2⟩ := List.append_sublist_iff.mp hcs
  have hperm : List.Perm (sort_sketch_elements elems) elems := by
    unfold sort_sketch_elements
    exact List.mergeSort_perm elems _
  have hcb2 : r₂.count b = 0 := by
    have h1 : elems.count b ≤ r₁.count b := by
      have := hb1.count_le b
      simpa using this
    have h2 := hperm.count_eq b
    rw [hS, List.count_append] at h2
    omega
  have hca1 : r₁.count a = 0 := by
    have h1 : elems.count a ≤ r₂.count a := by
      have := ha2.count_le a
      simpa using this
    have h2 := hperm.count_eq a
    rw [hS, List.count_append] at h2
    omega
  have hpairS : List.Sublist [a, b] (r₁ ++ r₂) := by
    rw [← hS, ← ha, ← hb]
    exact pair_sublist_of_lt _ fi.val fj.val fi.isLt fj.isLt hij
  obtain ⟨l₁, l₂, hsplit, hs1, hs2⟩ := List.sublist_append_iff.mp hpairS
  rcases l₁ with - | ⟨x, l₁⟩
  · have hl2 : l₂ = [a, b] := by simpa using hsplit.symm
    subst hl2
    have hbm : b ∈ r₂ := hs2.subset (by simp)
    have := List.count_pos_iff.mpr hbm
    omega
  · rcases l₁ with - | ⟨y, l₁⟩
    · have hax : a = x := by
        have hh := congrArg List.head? hsplit
        simpa using hh
      have hc1 := List.count_pos_iff.mpr (hs1.subset (by simp : x ∈ [x]))
      rw [← hax] at hc1
      omega
    · have hax : a = x := by
        have hh := congrArg List.head? hsplit
        simpa using hh
      have hc1 := List.count_pos_iff.mpr (hs1.subset (by simp : x ∈ x :: y :: l₁))
      rw [← hax] at hc1
      omega

/-- The concatenation of slices taken at non-overlapping, increasing offsets
is a sublist of the source. -/
theorem flatten_slices_sublist {α : Type} (es : List α) (off cnt : ℕ → ℕ) :
    ∀ (ks : List ℕ) (base : ℕ),
      List.Pairwise (fun r r' => off r + cnt r ≤ off r') ks →
      (∀ r ∈ ks, base ≤ off r) →
      List.Sublist ((ks.map (fun r => (es.drop (off r)).take (cnt r))).flatten)
        (es.drop base) := by
  intro ks
  induction ks with
  | nil =>
    intro base _ _
    simp
  | cons r ks ih =>
    intro base hpw hbase
    rw [List.map_cons, List.flatten_cons]
    obtain ⟨hhead, hpt⟩ := List.pairwise_cons.mp hpw
    have hbr : base ≤ off r := hbase r (List.mem_cons_self _ _)
    have hrest := ih (off r + cnt r) hpt hhead
    have h1 : (es.drop base).drop (off r - base) = es.drop (off r) := by
      rw [List.drop_drop]
      congr 1
      omega
    have hdecomp : es.drop base =
        (es.drop base).take (off r - base) ++
          ((es.drop (off r)).take (cnt r) ++ es.drop (off r + cnt r)) := by
      conv_lhs => rw [← List.take_append_drop (off r - base) (es.drop base)]
      rw [h1]
      congr 1
      conv_lhs => rw [← List.take_append_drop (cnt r) (es.drop (off r))]
      rw [List.drop_drop]
    rw [hdecomp]
    exact List.sublist_append_of_sublist_right
      (List.Sublist.append_left hrest _)

/-- Slicing commutes with mapping a function over the source array. -/
theorem slices_map_comm {α β : Type} (f : α → β) (l : List α) (off cnt : ℕ → ℕ)
    (ks : List ℕ) :
    (ks.map (fun r => ((l.map f).drop (off r)).take (cnt r))).flatten =
      ((ks.map (fun r => (l.drop (off r)).take (cnt r))).flatten).map f := by
  rw [List.map_flatten, List.map_map]
  congr 1
  apply List.map_congr_left
  intro r _
  simp [List.map_take, List.map_drop]

/-- The three claim-relevant data arrays of a built index are the
projections of a single element list which is a sublist of the stably
sorted elements (the whole sorted list if no filtering runs, the surviving
groups' elements if the filter runs). -/
theorem build_arrays_elements (elems : List SketchElement) (p : ℚ) :
    ∃ es : List SketchElement,
      List.Sublist es (sort_sketch_elements elems) ∧
      (build_arrays elems p).representations = es.map (fun e => e.representation) ∧
      (build_arrays elems p).read_ids = es.map (fun e => e.read_id) ∧
      (build_arrays elems p).positions_in_reads =
        es.map (fun e => e.position_in_read) := by
  by_cases hp : p < 1
  · obtain ⟨hlen, h0, hpw, hreps, hrids, hposs, hdirs⟩ :=
      build_arrays_unfiltered_valid elems
    have hb : build_arrays elems p = filter_out_with_threshold
        (filtering_threshold (build_arrays_unfiltered elems).representations.length p)
        (build_arrays_unfiltered elems) := by
      unfold build_arrays filter_out_most_common_representations
      rw [if_pos hp]
    have heq := filter_out_with_threshold_eq
      (filtering_threshold (build_arrays_unfiltered elems).representations.length p)
      (build_arrays_unfiltered elems) hlen h0 hpw hreps hrids hposs hdirs
    obtain ⟨ca, hca⟩ : ∃ ca, ca = replace_filtered_with_zero
        (number_of_sketch_elements_with_each_representation
          (build_arrays_unfiltered elems).first_occurrence_of_representations)
        (filtering_threshold
          (build_arrays_unfiltered elems).representations.length p) := ⟨_, rfl⟩
    rw [← hca] at heq
    have hca_le : ∀ r, r < (build_arrays_unfiltered elems).unique_representations.length →
        ca.getD r 0 ≤
          (build_arrays_unfiltered elems).first_occurrence_of_representations.getD (r + 1) 0 -
          (build_arrays_unfiltered elems).first_occurrence_of_representations.getD r 0 := by
      intro r hrm
      rw [hca, counts_after_getD _ _ hlen h0 hrm]
      split <;> omega
    have hfo_mono : ∀ i j, i ≤ j →
        j ≤ (build_arrays_unfiltered elems).unique_representations.length →
        (build_arrays_unfiltered elems).first_occurrence_of_representations.getD i 0 ≤
        (build_arrays_unfiltered elems).first_occurrence_of_representations.getD j 0 := by
      intro i j hij hj
      exact pairwise_getD_le (hpw.imp (fun h => le_of_lt h)) hij (by omega)
    refine ⟨((kept_list ca
        (build_arrays_unfiltered elems).unique_representations.length).map
        (fun r => ((sort_sketch_elements elems).drop
          ((build_arrays_unfiltered elems).first_occurrence_of_representations.getD r 0)).take
          (ca.getD r 0))).flatten, ?_, ?_, ?_, ?_⟩
    · have hpair : List.Pairwise
          (fun r r' =>
            (build_arrays_unfiltered elems).first_occurrence_of_representations.getD r 0 +
              ca.getD r 0 ≤
            (build_arrays_unfiltered elems).first_occurrence_of_representations.getD r' 0)
          (kept_list ca
            (build_arrays_unfiltered elems).unique_representations.length) := by
        rw [kept_list_eq_filter]
        refine ((List.pairwise_lt_range _).filter _).imp_of_mem ?_
        intro r r' hr hr' hlt
        have hrm : r < (build_arrays_unfiltered elems).unique_representations.length :=
          List.mem_range.mp (List.mem_of_mem_filter hr)
        have hrm' : r' < (build_arrays_unfiltered elems).unique_representations.length :=
          List.mem_range.mp (List.mem_of_mem_filter hr')
        have h1 := hca_le r hrm
        have h2 := hfo_mono r (r + 1) (by omega) (by omega)
        have h3 := hfo_mono (r + 1) r' (by omega) (by omega)
        omega
      have hsub := flatten_slices_sublist (sort_sketch_elements elems)
        (fun r => (build_arrays_unfiltered elems).first_occurrence_of_representations.getD r 0)
        (fun r => ca.getD r 0)
        (kept_list ca (build_arrays_unfiltered elems).unique_representations.length)
        0 hpair (fun r _ => Nat.zero_le _)
      simpa using hsub
    · rw [hb, heq]
      exact slices_map_comm (fun e => e.representation) (sort_sketch_elements elems) _ _ _
    · rw [hb, heq]
      exact slices_map_comm (fun e => e.read_id) (sort_sketch_elements elems) _ _ _
    · rw [hb, heq]
      exact slices_map_comm (fun e => e.position_in_read) (sort_sketch_elements elems) _ _ _
  · refine ⟨sort_sketch_elements elems, List.Sublist.refl _, ?_, ?_, ?_⟩ <;>
      · unfold build_arrays
        rw [if_neg hp]
        rfl

/-- **C5.** For every ready index: because the raw sketch elements are
emitted ordered by `read_id` then position and the sort by representation is
stable, within any run of equal representation in the built arrays the
read_ids are ascending and, within equal read_id, the positions are
ascending; and this ordering also survives the filtering pass, which copies
each surviving group contiguously in order. -/
theorem claim_C5 (elems : List SketchElement) (p : ℚ)
    (h : List.Pairwise read_order_le elems) :
    ∀ j, j + 1 < (build_arrays elems p).representations.length →
      (build_arrays elems p).representations.getD j 0 =
        (build_arrays elems p).representations.getD (j + 1) 0 →
      ((build_arrays elems p).read_ids.getD j 0 <
          (build_arrays elems p).read_ids.getD (j + 1) 0 ∨
        ((build_arrays elems p).read_ids.getD j 0 =
            (build_arrays elems p).read_ids.getD (j + 1) 0 ∧
          (build_arrays elems p).positions_in_reads.getD j 0 ≤
            (build_arrays elems p).positions_in_reads.getD (j + 1) 0)) := by
  obtain ⟨es, hsub, hr, hi, hp2⟩ := build_arrays_elements elems p
  have hpair : List.Pairwise
      (fun a b => a.representation = b.representation → read_order_le a b) es :=
    List.Pairwise.sublist hsub (sorted_pairwise_run_rel elems h)
  intro j hj hrep
  rw [hr, List.length_map] at hj
  have hj1 : j < es.length := by omega
  have hj2 : j + 1 < es.length := hj
  have hget : ∀ (f : SketchElement → ℕ) (k : ℕ) (hk : k < es.length),
      (es.map f).getD k 0 = f (es.get ⟨k, hk⟩) := by
    intro f k hk
    rw [List.getD_eq_getElem _ 0 (by simpa using hk), List.getElem_map]
    rfl
  have hrel := List.pairwise_iff_get.mp hpair ⟨j, hj1⟩ ⟨j + 1, hj2⟩
    (by simp)
  rw [hr, hget _ j hj1, hget _ (j + 1) hj2] at hrep
  have hro : read_order_le (es.get ⟨j, hj1⟩) (es.get ⟨j + 1, hj2⟩) := hrel hrep
  rw [hi, hp2, hget _ j hj1, hget _ (j + 1) hj2, hget _ j hj1, hget _ (j + 1) hj2]
  exact hro

/-- Witness for C5: two sketch elements of the same representation on the
same read at positions 0 and 3, built with `filtering_parameter = 1`; the
adjacent pair in the built arrays is in read-then-position order. -/
theorem claim_C5_witness :
    (build_arrays [(⟨7, 1, 0, false⟩ : SketchElement), ⟨7, 1, 3, true⟩]
          1).read_ids.getD 0 0 <
        (build_arrays [(⟨7, 1, 0, false⟩ : SketchElement), ⟨7, 1, 3, true⟩]
          1).read_ids.getD 1 0 ∨
      ((build_arrays [(⟨7, 1, 0, false⟩ : SketchElement), ⟨7, 1, 3, true⟩]
            1).read_ids.getD 0 0 =
          (build_arrays [(⟨7, 1, 0, false⟩ : SketchElement), ⟨7, 1, 3, true⟩]
            1).read_ids.getD 1 0 ∧
        (build_arrays [(⟨7, 1, 0, false⟩ : SketchElement), ⟨7, 1, 3, true⟩]
            1).positions_in_reads.getD 0 0 ≤
          (build_arrays [(⟨7, 1, 0, false⟩ : SketchElement), ⟨7, 1, 3, true⟩]
            1).positions_in_reads.getD 1 0) := by
  have hs : List.mergeSort
      [(⟨7, 1, 0, false⟩ : SketchElement), ⟨7, 1, 3, true⟩]
      (fun a b => decide (a.representation ≤ b.representation)) =
      [⟨7, 1, 0, false⟩, ⟨7, 1, 3, true⟩] :=
    List.mergeSort_of_sorted (by decide)
  have hb : build_arrays [(⟨7, 1, 0, false⟩ : SketchElement), ⟨7, 1, 3, true⟩] 1 =
      build_arrays_unfiltered [⟨7, 1, 0, false⟩, ⟨7, 1, 3, true⟩] := by
    unfold build_arrays
    rw [if_neg (lt_irrefl (1 : ℚ))]
  refine claim_C5 [⟨7, 1, 0, false⟩, ⟨7, 1, 3, true⟩] 1
    (by simp [read_order_le]) 0 ?_ ?_
  · rw [hb]
    unfold build_arrays_unfiltered sort_sketch_elements
    rw [hs]
    decide
  · rw [hb]
    unfold build_arrays_unfiltered sort_sketch_elements
    rw [hs]
    decide

end GenomeWorks
